import Mathlib

/-!
Verification of the django-dbml schema extractor and renderer.

This file is a shallow embedding of `django_dbml/utils.py` and
`django_dbml/management/commands/dbml.py` (the `Command` class: the
`handle` method and its helpers).  Python strings are Lean `String`s;
Python dicts (which preserve insertion order and overwrite values in
place) are insertion-ordered association lists; the mutable local state
of `handle` (the `enums`, `tables` and `table_colors_and_groups` dicts
plus the `schema_name` / `model_name` locals) is threaded explicitly as
a state record; Python exceptions (`CommandError`, `LookupError`,
`ValueError`, `NameError`) are `Except String`.

External inputs (Django's model-reflection API, `hashlib`,
`datetime.now`, `connection.schema_editor()`) are data: a model is a
record of exactly the attributes the command reads, and the schema
editor's `_create_index_name` / `_unique_constraint_name`, the color
hash and the formatted timestamp are parameters of the run environment.
-/

/-! ### Character and string helpers (Python string semantics, ASCII) -/

/-- Lower-case one character, as Python `str.lower` does on ASCII input
(all strings handled by the command are ASCII identifiers). -/
def lowerChar (c : Char) : Char :=
  if 65 ≤ c.toNat ∧ c.toNat ≤ 90 then Char.ofNat (c.toNat + 32) else c

/-- Python `str.lower` (ASCII fragment). -/
def pyLower (s : String) : String :=
  String.mk (s.data.map lowerChar)

/-- ASCII upper-case test, the `[A-Z]` class of the `snake_pattern` regex. -/
def isUpperA (c : Char) : Bool :=
  decide (65 ≤ c.toNat ∧ c.toNat ≤ 90)

/-- Insert `'_'` before every upper-case character of the tail.  Together
with keeping the head untouched this is `re.sub(r"(?<!^)(?=[A-Z])", "_", ·)`
from `utils.py`. -/
def snakeTail : List Char → List Char
  | [] => []
  | d :: ds => if isUpperA d then '_' :: d :: snakeTail ds else d :: snakeTail ds

/-- Apply the `snake_pattern` substitution: no underscore before position 0. -/
def snakeSub : List Char → List Char
  | [] => []
  | c :: cs => c :: snakeTail cs

/-- Fuel-driven worker for non-overlapping left-to-right substring
replacement (Python `str.replace`). -/
def replaceSubF : Nat → List Char → List Char → List Char → List Char
  | 0, _, _, s => s
  | _ + 1, _, _, [] => []
  | n + 1, pat, repl, c :: cs =>
    if pat ≠ [] ∧ pat.isPrefixOf (c :: cs) then
      repl ++ replaceSubF n pat repl ((c :: cs).drop pat.length)
    else
      c :: replaceSubF n pat repl cs

/-- Python `str.replace pat repl` (all occurrences, left to right). -/
def replaceSub (pat repl : String) (s : String) : String :=
  String.mk (replaceSubF s.data.length pat.data repl.data s.data)

/-- Embedding of `utils.to_snake_case`: the word-boundary underscore
insertion, lower-casing, then the four acronym corrections in source
order (`i_p_`, `u_r_l`, `u_u_i_d`, `j_s_o_n`). -/
def to_snake_case (value : String) : String :=
  let v := pyLower (String.mk (snakeSub value.data))
  replaceSub "j_s_o_n" "json"
    (replaceSub "u_u_i_d" "uuid"
      (replaceSub "u_r_l" "url"
        (replaceSub "i_p_" "ip_" v)))

/-- Python `str.removesuffix "Field"`. -/
def removeFieldSuffix (s : String) : String :=
  if "Field".data.isSuffixOf s.data then
    String.mk (s.data.take (s.data.length - 5))
  else s

/-- Embedding of `Command.map_field_type_to_dbml_type`, applied to the
field class name (`type(field).__name__`). -/
def map_field_type_to_dbml_type (clsName : String) : String :=
  to_snake_case (removeFieldSuffix clsName)

/-- Split a character list at a separator character; `splitCh sep []`
is `[[]]`, matching Python `"".split(sep) == ['']`. -/
def splitCh (sep : Char) : List Char → List (List Char)
  | [] => [[]]
  | c :: cs =>
    let r := splitCh sep cs
    if c = sep then [] :: r
    else
      match r with
      | g :: gs => (c :: g) :: gs
      | [] => [[c]]

/-- Python `s.split(sep)` for a one-character separator. -/
def splitStr (sep : Char) (s : String) : List String :=
  (splitCh sep s.data).map String.mk

/-- Python `ch in s` for a single character. -/
def strContainsCh (s : String) (c : Char) : Bool :=
  s.data.contains c

/-- Python `sub in s` substring containment (used by `get_db_type`). -/
def containsSub (s sub : String) : Bool :=
  (splitOnSub s.data sub.data).length ≠ 1
where
  /-- Worker: count the pieces `s` splits into at `sub`. -/
  splitOnSub : List Char → List Char → List (List Char)
  | s, sub => ((replaceSubF s.length sub ['\x00'] s).foldr
      (fun c r =>
        if c = '\x00' then [] :: r
        else match r with
          | g :: gs => (c :: g) :: gs
          | [] => [[c]]) [[]])

/-- Python `s.replace(old, new, 1)` for one-character `old`/`new`
(used for the first `'_' → '.'` swap of the m2m table name). -/
def replaceFirstCh (a b : Char) (s : String) : String :=
  String.mk (go s.data)
where
  /-- Replace the first occurrence only. -/
  go : List Char → List Char
  | [] => []
  | c :: cs => if c = a then b :: cs else c :: go cs

/-- Python `value.replace("'", '"')` (note formatting). -/
def squoteToDquote (s : String) : String :=
  String.mk (s.data.map (fun c => if c = '\x27' then '"' else c))

/-- Python `value.replace('"', '\\"')` (db_comment / help_text escaping). -/
def escapeDquote (s : String) : String :=
  String.mk (s.data.flatMap (fun c => if c = '"' then ['\\', '"'] else [c]))

/-- Python `str.strip('\n')`. -/
def stripNl (s : String) : String :=
  String.mk (((s.data.dropWhile (· = '\n')).reverse.dropWhile (· = '\n')).reverse)

/-- Python whitespace class used by `str.rstrip()`. -/
def isPySpace (c : Char) : Bool :=
  c = ' ' ∨ c = '\t' ∨ c = '\n' ∨ c = '\r' ∨ c = '\x0b' ∨ c = '\x0c'

/-- Python `str.rstrip()`. -/
def rstrip (s : String) : String :=
  String.mk ((s.data.reverse.dropWhile isPySpace).reverse)

/-- Action of `textwrap.dedent` on a single line: a line of only blanks
and tabs becomes empty, otherwise its leading blank/tab margin is cut. -/
def dedentLine (l : String) : String :=
  if l.data.all (fun c => c = ' ' ∨ c = '\t') then ""
  else String.mk (l.data.dropWhile (fun c => c = ' ' ∨ c = '\t'))

/-- Join a list of strings with a separator (Python `sep.join`). -/
def strJoin (sep : String) : List String → String
  | [] => ""
  | [s] => s
  | s :: rest => s ++ sep ++ strJoin sep rest

/-- Embedding of `Command.cleanup_docstring`. -/
def cleanup_docstring (input : String) : String :=
  stripNl (strJoin "\n" ((splitStr '\n' input).map dedentLine))

/-- Python `s[:n]` on a string. -/
def strTake (s : String) (n : Nat) : String :=
  String.mk (s.data.take n)

/-- Code-point lexicographic comparison of character lists, the order
Python uses to compare strings. -/
def charListLe : List Char → List Char → Bool
  | [], _ => true
  | _ :: _, [] => false
  | a :: as, b :: bs =>
    if a.toNat < b.toNat then true
    else if b.toNat < a.toNat then false
    else charListLe as bs

/-- Python `s <= t` on strings. -/
def strLeB (a b : String) : Bool :=
  charListLe a.data b.data

/-! ### Insertion-ordered dictionaries (Python `dict`) -/

/-- Look a key up in an association list (Python `d[k]` / `k in d`). -/
def alFind {α : Type} : List (String × α) → String → Option α
  | [], _ => none
  | (k', v') :: t, k => if k' = k then some v' else alFind t k

/-- Python `d[k] = v`: overwrite in place if the key exists, else append. -/
def alInsert {α : Type} : List (String × α) → String → α → List (String × α)
  | [], k, v => [(k, v)]
  | (k', v') :: t, k, v =>
    if k' = k then (k, v) :: t else (k', v') :: alInsert t k v

/-- Update the value stored at a key, leaving the key sequence unchanged
(Python mutation of `d[k]` for a present key; absent keys: no effect). -/
def alModify {α : Type} : List (String × α) → String → (α → α) → List (String × α)
  | [], _, _ => []
  | (k', v') :: t, k, f =>
    if k' = k then (k', f v') :: t else (k', v') :: alModify t k f

/-- Key sequence of the dictionary, in insertion order. -/
def alKeys {α : Type} (l : List (String × α)) : List String :=
  l.map (·.1)

/-! ### Data model: the attributes of the Django metadata the command reads -/

/-- Rendering-relevant shape of a field's `default` value: a callable
(already rendered as `module.name()`), a Python string, or any other
value rendered through `f'{value}'`. -/
inductive DefaultVal : Type
  | call (rendered : String)
  | str (v : String)
  | other (rendered : String)
deriving DecidableEq, Repr

/-- Value stored in a per-field attribute dictionary. -/
inductive AttrVal : Type
  | s (v : String)
  | b (v : Bool)
  | dflt (d : DefaultVal)
deriving DecidableEq, Repr

/-- The per-field dict `tables[t]["fields"][f]` of `handle`. -/
def FieldDict : Type := List (String × AttrVal)
deriving instance DecidableEq, Repr for FieldDict

/-- One index entry of `tables[t]["indexes"]`. -/
structure IndexInfo : Type where
  fields : List String
  type : String
  name : String
  unique : Bool
  pk : Bool
deriving DecidableEq, Repr

/-- One relation entry of `tables[t]["relations"]`; `type` is the
string `"one_to_many"` or `"one_to_one"` exactly as in the source. -/
structure Relation : Type where
  type : String
  tableFrom : String
  tableFromField : String
  tableTo : String
  tableToField : String
deriving DecidableEq, Repr

/-- The per-table dict of `handle`. -/
structure Table : Type where
  fields : List (String × FieldDict)
  relations : List Relation
  indexes : List IndexInfo
  note : String
deriving DecidableEq, Repr

/-- Fresh table value `{"fields": {}, "relations": [], 'indexes': [], 'note': ''}`. -/
def Table.empty : Table := ⟨[], [], [], ""⟩

/-- Ground truth about the intermediate model of a many-to-many field:
Django auto-generated it, or the user supplied it via `through=`.  The
command never reads this flag — it only inspects the through model's
name — which is exactly what the claims about explicit intermediates
are about. -/
inductive ThroughKind : Type
  | auto
  | explicit
deriving DecidableEq, Repr

/-- Attributes of a `ManyToManyField` read by `handle`. -/
structure M2MInfo : Type where
  throughKind : ThroughKind
  /-- Coincides with `field.remote_field.through._meta.model_name`, the
  lower-cased class name of the intermediate model. -/
  throughModelName : String
  m2mDbTable : String
  m2mColumnName : String
  m2mReverseName : String
  m2mTargetFieldName : String
  m2mReverseTargetFieldName : String
  /-- The `_meta.label` of `field.related_model`. -/
  relatedLabel : String
  /-- The `_meta.db_table` of `field.related_model`. -/
  relatedDbTable : String
deriving DecidableEq, Repr

/-- Kind of a model field, matching the `isinstance` dispatch of
`handle`; related-model data carries both names `get_table_name` could
return. -/
inductive FieldKind : Type
  | plain
  | oneToOne (relatedLabel relatedDbTable targetFieldName : String)
  | foreignKey (relatedLabel relatedDbTable targetFieldName : String)
  | manyToMany (info : M2MInfo)
  | reverseRel
deriving DecidableEq, Repr

/-- A model field together with every attribute `handle` reads from it. -/
structure DField : Type where
  name : String
  /-- Python `type(field).__name__`, e.g. `"CharField"`, `"ForeignKey"`. -/
  typeName : String
  null : Bool := false
  primaryKey : Bool := false
  unique : Bool := false
  dbIndex : Bool := false
  default? : Option DefaultVal := none
  helpText : String := ""
  dbComment : String := ""
  choices : List (String × String) := []
  /-- Set for array-like fields: the base field's class name and choices. -/
  baseField? : Option (String × List (String × String)) := none
  kind : FieldKind := .plain
deriving DecidableEq, Repr

/-- Does the `isinstance(field, OneToOneField)` test succeed? -/
def DField.isO2O (f : DField) : Bool :=
  match f.kind with
  | .oneToOne _ _ _ => true
  | _ => false

/-- A `class Meta: indexes` entry, with the column names already
resolved through `_meta._forward_fields_map[...].column`. -/
structure MetaIndex : Type where
  columns : List String
  name : String
  isHash : Bool
deriving DecidableEq, Repr

/-- A Django model, restricted to the attributes the command reads. -/
structure DModel : Type where
  appLabel : String
  objectName : String
  /-- The `_meta.db_table` storage name. -/
  dbTable : String
  /-- The `__module__` dotted path. -/
  module : String
  fields : List DField
  metaIndexes : List MetaIndex := []
  /-- The `unique_together` sets, columns already resolved. -/
  uniqueTogether : List (List String) := []
  doc : String := ""
  dbTableComment : String := ""
deriving DecidableEq, Repr

/-- Django `model._meta.label`, i.e. `f"{app_label}.{object_name}"`. -/
def DModel.label (m : DModel) : String :=
  m.appLabel ++ "." ++ m.objectName

/-- One installed app of the registry. -/
structure AppConfig : Type where
  label : String
  models : List DModel
deriving DecidableEq, Repr

/-- The app registry (`django.apps.apps`). -/
structure Registry : Type where
  apps : List AppConfig
deriving DecidableEq, Repr

/-- Command-line options of the `dbml` command. -/
structure Options : Type where
  tableNames : Bool := false
  groupByApp : Bool := false
  colorByApp : Bool := false
  projectName : String := "None"
  projectNotes : String := "None"
  disableUpdateTimestamp : Bool := false
deriving DecidableEq, Repr

/-- External services used during extraction: the schema editor's
deterministic index-name builders and the sha256 color hash. -/
structure SchemaEnv : Type where
  createIndexName : String → List String → String
  uniqueConstraintName : String → List String → String
  colorHash : String → String

/-- Full run environment: extraction services plus the database engine
string and the formatted `datetime.now` timestamp the renderer uses. -/
structure Env extends SchemaEnv : Type where
  engine : String
  now : String

deriving instance DecidableEq for Except

/-! ### Extraction state -/

/-- Mutable local state of `Command.handle` during the model loop: the
`enums`, `tables` and `table_colors_and_groups` dicts, and the
`schema_name` / `model_name` locals of the choices branch (`none` while
they are still unassigned). -/
structure XState : Type where
  enums : List (String × String)
  tables : List (String × Table)
  colors : List (String × (String × String))
  svars : Option (String × String)
deriving DecidableEq, Repr

/-- State at the top of `handle`: three empty dicts, locals unassigned. -/
def XState.init : XState := ⟨[], [], [], none⟩

/-- Embedding of `Command.get_table_name`. -/
def get_table_name (opts : Options) (m : DModel) : String :=
  if opts.tableNames then m.dbTable else m.label

/-- The value `get_table_name` returns for a related model, given its
`label` and `db_table`. -/
def refName (opts : Options) (label dbTable : String) : String :=
  if opts.tableNames then dbTable else label

/-- Embedding of `Command.get_tl_module_name`. -/
def get_tl_module_name (m : DModel) : String :=
  let parts := splitStr '.' m.module
  if parts.length ≥ 2 then parts.getD (parts.length - 2) "" else parts.getD 0 ""

/-- Embedding of `Command.get_db_type`; the final branch formats the
raw engine string. -/
def get_db_type (engine : String) : String :=
  let e := pyLower engine
  if containsSub e "postgres" then "PostgreSQL"
  else if containsSub e "sqlite" then "SQLite"
  else if containsSub e "mysql" then "MySQL"
  else if containsSub e "oracle" then "Oracle"
  else if containsSub e "mssql" then "Microsoft SQL"
  else "Unknown (" ++ engine ++ ")"

/-- Embedding of `Command.get_enum_choices`. -/
def get_enum_choices (f : DField) : List (String × String) :=
  f.choices

/-- Embedding of `Command.choices_to_markdown_table`. -/
def choices_to_markdown_table (choices : List (String × String)) : String :=
  (choices.foldl (fun s c => s ++ "\n|" ++ c.1 ++ "|" ++ c.2 ++ "|")
    "| Value | Display |\n| -------- | ------- |")

/-- Body of an `enum` block: the joined per-choice lines built at
`enums[enum_name] = '\n  '.join(...)`. -/
def renderEnumBody (choices : List (String × String)) : String :=
  strJoin "\n  " (choices.map
    (fun c => "\"" ++ c.1 ++ "\" [note: \x27\x27\x27" ++ c.2 ++ "\x27\x27\x27]"))

/-- The `schema_name, model_name = table_name.split(...)` statements of
the choices branch: a 2-way unpack of `split('.')` when the table name
contains a dot, else of `split('_')` when it contains an underscore,
else no assignment at all (the locals keep their previous value).  A
split into any number of parts other than two raises `ValueError`. -/
def updateSvars (sv : Option (String × String)) (tn : String) :
    Except String (Option (String × String)) :=
  if strContainsCh tn '.' then
    match splitStr '.' tn with
    | [a, b] => .ok (some (a, b))
    | _ => .error "ValueError: not enough (or too many) values to unpack"
  else if strContainsCh tn '_' then
    match splitStr '_' tn with
    | [a, b] => .ok (some (a, b))
    | _ => .error "ValueError: not enough (or too many) values to unpack"
  else .ok sv

/-- Append one relation entry to `tables[tn]["relations"]`. -/
def addRel (st : XState) (tn : String) (r : Relation) : XState :=
  { st with
    tables := alModify st.tables tn (fun t => { t with relations := t.relations ++ [r] }) }

/-- The per-column index entries (zero or one) a field contributes, with
the pkey / unique-key / schema-editor naming rules of lines 321–331. -/
def commonIdxs (senv : SchemaEnv) (m : DModel) (fieldName : String)
    (f : DField) : List IndexInfo :=
  if f.dbIndex || f.primaryKey || f.unique then
    [{ fields := [fieldName], type := "btree",
       name :=
         if f.primaryKey then m.dbTable ++ "_pkey"
         else if f.isO2O || f.unique then m.dbTable ++ "_" ++ fieldName ++ "_key"
         else senv.createIndexName m.dbTable [fieldName],
       unique := f.unique, pk := f.primaryKey }]
  else []

/-- The accumulated `note` of a field dict, before the final newline
strip: db_comment, help_text, and the base-field choice table. -/
def commonNote (f : DField) : String :=
  let note1 := if f.dbComment ≠ "" then escapeDquote f.dbComment else ""
  let note2 := if f.helpText ≠ "" then note1 ++ "\n" ++ escapeDquote f.helpText else note1
  match f.baseField? with
  | some (bt, bch) =>
    if bch ≠ [] then
      note2 ++ "\n\nBase field choices (" ++ map_field_type_to_dbml_type bt ++ "):"
        ++ "\n" ++ choices_to_markdown_table bch
    else note2
  | none => note2

/-- The final field dict, with the key insertion order of the source:
`type`, `note`, then `null` / `pk` / `unique` / `default` as applicable. -/
def commonFdict (typ : String) (f : DField) : FieldDict :=
  [("type", .s typ), ("note", .s (stripNl (commonNote f)))]
    ++ (if f.null then [("null", .b true)] else [])
    ++ (if f.primaryKey then [("pk", .b true)] else [])
    ++ (if f.unique then [("unique", .b true)] else [])
    ++ (match f.default? with | some d => [("default", .dflt d)] | none => [])

/-- The choices branch (lines 339–348): on a choice-bearing field,
re-derive the `schema_name` / `model_name` locals, build the enum name,
and store the joined enum body; otherwise everything is unchanged.
Returns the new locals, the column's (possibly rewritten) type, and the
new enums dict. -/
def choicesStep (st : XState) (tn baseType fieldName : String) (f : DField) :
    Except String (Option (String × String) × String × List (String × String)) :=
  if f.choices ≠ [] then
    match updateSvars st.svars tn with
    | .error e => .error e
    | .ok none => .error "NameError: name \x27schema_name\x27 is not defined"
    | .ok (some (schemaName, modelName)) =>
      let enumName := pyLower (schemaName ++ "." ++ baseType ++ "_" ++ modelName ++ "_" ++ fieldName)
      .ok (some (schemaName, modelName), enumName,
        alInsert st.enums enumName (renderEnumBody (get_enum_choices f)))
  else .ok (st.svars, baseType, st.enums)

/-- Lines 306–354 of `dbml.py`: the shared per-field processing every
non-m2m, non-reverse field goes through — the field dict with its type,
note, null/pk/unique/default attributes, the per-column index entry,
and the choices-to-enum rewrite. -/
def processCommon (senv : SchemaEnv) (m : DModel) (tn fieldName : String)
    (f : DField) (st : XState) : Except String XState :=
  match choicesStep st tn (map_field_type_to_dbml_type f.typeName) fieldName f with
  | .error e => .error e
  | .ok (svars', typ, enums') =>
    .ok { st with
      svars := svars',
      enums := enums',
      tables := alModify st.tables tn (fun t =>
        { t with fields := alInsert t.fields fieldName (commonFdict typ f),
                 indexes := t.indexes ++ commonIdxs senv m fieldName f }) }

/-- The requalified name of the synthetic linking table: the first
underscore of `field.m2m_db_table()` becomes a dot. -/
def m2mLinkName (i : M2MInfo) : String :=
  if strContainsCh i.m2mDbTable '_' then replaceFirstCh '_' '.' i.m2mDbTable
  else i.m2mDbTable

/-- The synthetic linking table built on first encounter: the surrogate
`id` column and the two link columns, the two one-to-many relations from
the linking table to each side, the four index entries, and the note. -/
def m2mTable (senv : SchemaEnv) (opts : Options) (m : DModel) (i : M2MInfo)
    (tnm : String) : Table :=
  let old := i.m2mDbTable
  { fields :=
      alInsert (alInsert (alInsert [] "id" [("pk", .b true), ("type", .s "auto")])
        i.m2mReverseName [("type", .s "auto")]) i.m2mColumnName [("type", .s "auto")],
    relations :=
      [ { type := "one_to_many", tableFrom := tnm, tableFromField := i.m2mColumnName,
          tableTo := get_table_name opts m, tableToField := i.m2mTargetFieldName },
        { type := "one_to_many", tableFrom := tnm, tableFromField := i.m2mReverseName,
          tableTo := refName opts i.relatedLabel i.relatedDbTable,
          tableToField := i.m2mReverseTargetFieldName } ],
    indexes :=
      [ { fields := [i.m2mReverseName], type := "btree",
          name := senv.createIndexName old [i.m2mReverseName], unique := false, pk := false },
        { fields := [i.m2mColumnName], type := "btree",
          name := senv.createIndexName old [i.m2mColumnName], unique := false, pk := false },
        { fields := ["id"], type := "btree", name := old ++ "_pkey", unique := true, pk := true },
        { fields := [i.m2mColumnName, i.m2mReverseName], type := "btree",
          name := senv.uniqueConstraintName old [i.m2mColumnName, i.m2mReverseName],
          unique := true, pk := false } ],
    note := "This is a Many-To-Many linking table autogenerated by Django."
      ++ (if ¬ opts.tableNames then "\n\n*DB table: " ++ old ++ "*" else "") }

/-- Lines 228–304 of `dbml.py`: the `ManyToManyField` branch.  A through
model whose name has no underscore is assumed user-supplied and skipped;
otherwise the linking table name is requalified and, on first encounter
only, the synthetic linking table is inserted. -/
def processM2M (senv : SchemaEnv) (opts : Options) (m : DModel)
    (tlModule tableColor : String) (i : M2MInfo) (st : XState) : XState :=
  if ¬ strContainsCh i.throughModelName '_' then st
  else
    let tnm := m2mLinkName i
    if (alFind st.tables tnm).isSome then st
    else
      { st with
        tables := alInsert st.tables tnm (m2mTable senv opts m i tnm),
        colors := alInsert st.colors tnm (tableColor, tlModule) }

/-- One iteration of the field loop of `handle`: dispatch on the field's
kind exactly as the `isinstance` chain does.  Reverse relations are
skipped; one-to-one and foreign-key fields get their `_id`-suffixed
column name and one relation entry, then fall through to the common
processing; many-to-many fields are handled entirely by their branch. -/
def processField (senv : SchemaEnv) (opts : Options) (m : DModel)
    (tn tableColor tlModule : String) (st : XState) (f : DField) :
    Except String XState :=
  match f.kind with
  | .reverseRel => .ok st
  | .oneToOne rl rdb tf =>
    let fieldName := f.name ++ "_id"
    processCommon senv m tn fieldName f (addRel st tn
      { type := "one_to_one", tableFrom := refName opts rl rdb, tableFromField := tf,
        tableTo := tn, tableToField := fieldName })
  | .foreignKey rl rdb tf =>
    let fieldName := f.name ++ "_id"
    processCommon senv m tn fieldName f (addRel st tn
      { type := "one_to_many", tableFrom := refName opts rl rdb, tableFromField := tf,
        tableTo := tn, tableToField := fieldName })
  | .manyToMany i => .ok (processM2M senv opts m tlModule tableColor i st)
  | .plain => processCommon senv m tn f.name f st

/-- Fold `processField` over a model's field list. -/
def processFields (senv : SchemaEnv) (opts : Options) (m : DModel)
    (tn tableColor tlModule : String) : XState → List DField → Except String XState
  | st, [] => .ok st
  | st, f :: fs =>
    match processField senv opts m tn tableColor tlModule st f with
    | .error e => .error e
    | .ok st1 => processFields senv opts m tn tableColor tlModule st1 fs

/-- One iteration of the model loop of `handle`: fresh table and
color/group entries, the field pass, then `Meta.indexes`,
`unique_together`, and the docstring / db-comment / db-table notes.
(The `comment.replace('"', '\"')` of the source is the identity — the
Python escape `'\"'` is just `'"'`.) -/
def processModel (senv : SchemaEnv) (opts : Options) (st : XState) (m : DModel) :
    Except String XState :=
  let tlModule := get_tl_module_name m
  let tableColor := if opts.colorByApp then "#" ++ strTake (senv.colorHash tlModule) 6 else ""
  let tn := get_table_name opts m
  let st0 := { st with tables := alInsert st.tables tn Table.empty,
                       colors := alInsert st.colors tn (tableColor, tlModule) }
  match processFields senv opts m tn tableColor tlModule st0 m.fields with
  | .error e => .error e
  | .ok st1 =>
    let metaIdx : List IndexInfo := m.metaIndexes.map (fun mi =>
      { fields := mi.columns, type := if mi.isHash then "hash" else "btree",
        name := mi.name, unique := false, pk := false })
    let utIdx : List IndexInfo := m.uniqueTogether.map (fun cols =>
      { fields := cols, type := "btree", name := senv.uniqueConstraintName m.dbTable cols,
        unique := true, pk := false })
    let st2 := { st1 with tables := alModify st1.tables tn (fun t =>
      { t with indexes := t.indexes ++ metaIdx ++ utIdx }) }
    let note1 := if m.doc ≠ "" then "\n" ++ m.doc else ""
    let note2 := if m.dbTableComment ≠ "" then
        note1 ++ "\n\n*DB comment: " ++ m.dbTableComment ++ "*" else note1
    let note3 := if ¬ opts.tableNames then note2 ++ "\n\n*DB table: " ++ m.dbTable ++ "*" else note2
    Except.ok { st2 with tables := alModify st2.tables tn (fun t =>
      { t with note := t.note ++ note3 }) }

/-- Fold `processModel` over the selected models. -/
def processModels (senv : SchemaEnv) (opts : Options) :
    XState → List DModel → Except String XState
  | st, [] => .ok st
  | st, m :: ms =>
    match processModel senv opts st m with
    | .error e => .error e
    | .ok st1 => processModels senv opts st1 ms

/-- The whole collection pass of `handle` (lines 180–393). -/
def extract (senv : SchemaEnv) (opts : Options) (models : List DModel) :
    Except String XState :=
  processModels senv opts XState.init models

/-! ### Model selection (`get_app_tables`) -/

/-- Message of the `LookupError` Django raises for an unknown app label
(modelled from Django's `apps.get_app_config`); `Command.get_app_tables`
re-raises it verbatim as a `CommandError`. -/
def appLookupMsg (appLabel : String) : String :=
  "No installed app with label \x27" ++ appLabel ++ "\x27."

/-- Message of the `LookupError` Django raises for an unknown model name
(modelled from Django's `AppConfig.get_model`); `get_app_tables` does
not catch this one, so it propagates and aborts the command. -/
def modelLookupMsg (appLabel modelLabel : String) : String :=
  "App \x27" ++ appLabel ++ "\x27 doesn\x27t have a \x27" ++ modelLabel ++ "\x27 model."

/-- Django `apps.get_app_config` as a lookup in the registry. -/
def findApp (reg : Registry) (label : String) : Option AppConfig :=
  reg.apps.find? (fun a => a.label = label)

/-- Django `AppConfig.get_model` (model names compare case-insensitively). -/
def AppConfig.getModel (cfg : AppConfig) (ml : String) : Option DModel :=
  cfg.models.find? (fun m => pyLower m.objectName = pyLower ml)

/-- Django `apps.get_models()`: every model of every installed app. -/
def Registry.allModels (reg : Registry) : List DModel :=
  (reg.apps.map (·.models)).flatten

/-- Selector loop of `get_app_tables`: each `app` or `app.model` token
extends the accumulator, the first lookup failure aborts. -/
def getAppTablesLoop (reg : Registry) : List DModel → List String → Except String (List DModel)
  | acc, [] => .ok acc
  | acc, sel :: rest =>
    let parts := splitStr '.' sel
    let appLabel := parts.headD ""
    match findApp reg appLabel with
    | none => .error (appLookupMsg appLabel)
    | some cfg =>
      match parts.get? 1 with
      | some ml =>
        match cfg.getModel ml with
        | none => .error (modelLookupMsg appLabel ml)
        | some mdl => getAppTablesLoop reg (acc ++ [mdl]) rest
      | none => getAppTablesLoop reg (acc ++ cfg.models) rest

/-- Embedding of `Command.get_app_tables`. -/
def get_app_tables (reg : Registry) (appLabels : List String) : Except String (List DModel) :=
  if appLabels.isEmpty then .ok reg.allModels
  else getAppTablesLoop reg [] appLabels

/-! ### Sorting (Python `sorted`), with the code-point string order -/

/-- Order on dict items used by `sorted(d.items())`: compare keys.  The
dicts sorted by `handle` have pairwise-distinct keys, so Python never
reaches the value component of the tuple comparison. -/
def pairLe {α : Type} (p q : String × α) : Prop := strLeB p.1 q.1 = true

instance {α : Type} : DecidableRel (@pairLe α) :=
  fun p q => inferInstanceAs (Decidable (strLeB p.1 q.1 = true))

/-- Order used by `sorted(table['indexes'], key=lambda x: str(x['name']))`. -/
def idxLe (a b : IndexInfo) : Prop := strLeB a.name b.name = true

instance : DecidableRel idxLe :=
  fun a b => inferInstanceAs (Decidable (strLeB a.name b.name = true))

theorem charListLe_total : ∀ (a b : List Char),
    charListLe a b = true ∨ charListLe b a = true
  | [], _ => Or.inl rfl
  | _ :: _, [] => Or.inr rfl
  | a :: as, b :: bs => by
    simp only [charListLe]
    rcases Nat.lt_trichotomy a.toNat b.toNat with h | h | h
    · left; simp [h]
    · have h1 : ¬ a.toNat < b.toNat := by omega
      have h2 : ¬ b.toNat < a.toNat := by omega
      simpa [h1, h2] using charListLe_total as bs
    · right; simp [h]

theorem charListLe_trans : ∀ (a b c : List Char), charListLe a b = true →
    charListLe b c = true → charListLe a c = true
  | [], _, _, _, _ => rfl
  | _ :: _, [], _, h, _ => by simp [charListLe] at h
  | _ :: _, _ :: _, [], _, h => by simp [charListLe] at h
  | a :: as, b :: bs, c :: cs, h1, h2 => by
    simp only [charListLe] at h1 h2 ⊢
    rcases Nat.lt_trichotomy a.toNat b.toNat with hab | hab | hab
    · rcases Nat.lt_trichotomy b.toNat c.toNat with hbc | hbc | hbc
      · simp [show a.toNat < c.toNat by omega]
      · simp [show a.toNat < c.toNat by omega]
      · simp [show ¬ b.toNat < c.toNat by omega, hbc] at h2
    · rcases Nat.lt_trichotomy b.toNat c.toNat with hbc | hbc | hbc
      · simp [show a.toNat < c.toNat by omega]
      · have e1 : ¬ a.toNat < b.toNat := by omega
        have e2 : ¬ b.toNat < a.toNat := by omega
        have e3 : ¬ b.toNat < c.toNat := by omega
        have e4 : ¬ c.toNat < b.toNat := by omega
        have e5 : ¬ a.toNat < c.toNat := by omega
        have e6 : ¬ c.toNat < a.toNat := by omega
        rw [if_neg e1, if_neg e2] at h1
        rw [if_neg e3, if_neg e4] at h2
        rw [if_neg e5, if_neg e6]
        exact charListLe_trans as bs cs h1 h2
      · simp [show ¬ b.toNat < c.toNat by omega, hbc] at h2
    · simp [show ¬ a.toNat < b.toNat by omega, hab] at h1

instance {α : Type} : IsTotal (String × α) pairLe :=
  ⟨fun a b => charListLe_total a.1.data b.1.data⟩

instance {α : Type} : IsTrans (String × α) pairLe :=
  ⟨fun _ _ _ h1 h2 => charListLe_trans _ _ _ h1 h2⟩

instance : IsTotal IndexInfo idxLe :=
  ⟨fun a b => charListLe_total a.name.data b.name.data⟩

instance : IsTrans IndexInfo idxLe :=
  ⟨fun _ _ _ h1 h2 => charListLe_trans _ _ _ h1 h2⟩

/-- Python `sorted(d.items())` on a dict with pairwise-distinct keys. -/
def sortPairs {α : Type} (l : List (String × α)) : List (String × α) :=
  List.insertionSort pairLe l

/-- Python `sorted(indexes, key=lambda x: str(x['name']))`. -/
def sortIdx (l : List IndexInfo) : List IndexInfo :=
  List.insertionSort idxLe l

/-! ### Renderer (lines 395–465 of `dbml.py`) -/

/-- Render the backtick payload of a `default:` attribute. -/
def renderDefault : DefaultVal → String
  | .call r => r
  | .str v => "\"" ++ v ++ "\""
  | .other r => r

/-- Generic f-string rendering of an attribute value, for the fallback
`f"{name}:{value}"` arm (unreachable for the keys `handle` stores). -/
def showAttrVal : AttrVal → String
  | .s v => v
  | .b b => if b then "True" else "False"
  | .dflt d => renderDefault d

/-- The `note:` attribute string with its quote swap and the multi-line
variant. -/
def noteAttrStr (v : String) : String :=
  let vf := squoteToDquote v
  if strContainsCh vf '\n' then "note: \x27\x27\x27\n" ++ vf ++ "\x27\x27\x27"
  else "note: \x27\x27\x27" ++ vf ++ "\x27\x27\x27"

/-- Python `field["type"]` on a field dict. -/
def fdType (fd : FieldDict) : String :=
  match alFind fd "type" with
  | some (.s v) => v
  | _ => ""

/-- Python `field.get('null')` truthiness on a field dict. -/
def fdNull (fd : FieldDict) : Bool :=
  match alFind fd "null" with
  | some (.b b) => b
  | _ => false

/-- Embedding of `Command.get_field_attributes`. -/
def get_field_attributes (fd : FieldDict) : String :=
  if fd.length = 1 then ""
  else
    let attrs := fd.foldl (fun acc p =>
      if p.1 = "type" ∨ p.1 = "null" then acc
      else if p.1 = "note" then
        match p.2 with
        | .s v => if v ≠ "" then acc ++ [noteAttrStr v] else acc
        | _ => acc
      else if p.1 = "pk" ∨ p.1 = "unique" then acc ++ [p.1]
      else if p.1 = "default" then
        match p.2 with
        | .dflt d => acc ++ ["default:\x60" ++ renderDefault d ++ "\x60"]
        | v => acc ++ ["default:\x60" ++ showAttrVal v ++ "\x60"]
      else acc ++ [p.1 ++ ":" ++ showAttrVal p.2]) []
    let attrs := attrs ++ [if fdNull fd then "null" else "not null"]
    if attrs.isEmpty then "" else "[" ++ strJoin ", " attrs ++ "]"

/-- One column line of a table block (with its trailing `rstrip`). -/
def renderFieldLine (p : String × FieldDict) : String :=
  rstrip ("  " ++ p.1 ++ " " ++ fdType p.2 ++ " " ++ get_field_attributes p.2)

/-- One line of the `indexes` block. -/
def renderIndexLine (i : IndexInfo) : String :=
  let fieldsAsList := "(" ++ strJoin "," i.fields ++ ")"
  let attrs := (if i.pk then ["pk"] else []) ++ (if i.unique then ["unique"] else [])
    ++ ["name: \x27" ++ i.name ++ "\x27", "type: " ++ i.type]
  "    " ++ fieldsAsList ++ " [" ++ strJoin ", " attrs ++ "]"

/-- The `ref:` lines a table's relation list produces, in order; the
`>` form for `one_to_many`, the `-` form for `one_to_one`. -/
def renderRelLines (rels : List Relation) : List String :=
  rels.flatMap (fun r =>
    (if r.type = "one_to_many" then
      ["ref: " ++ r.tableTo ++ "." ++ r.tableToField ++ " > "
        ++ r.tableFrom ++ "." ++ r.tableFromField] else [])
    ++ (if r.type = "one_to_one" then
      ["ref: " ++ r.tableTo ++ "." ++ r.tableToField ++ " - "
        ++ r.tableFrom ++ "." ++ r.tableFromField] else []))

/-- Opening line of a table block, with the optional header color. -/
def tableHeadLine (opts : Options) (colors : List (String × (String × String)))
    (tn : String) : String :=
  if opts.colorByApp then
    "Table " ++ tn ++ " [headercolor: "
      ++ (match alFind colors tn with | some cg => cg.1 | none => "") ++ "] \x7b"
  else "Table " ++ tn ++ " \x7b"

/-- The block of output lines for one table: header, optional note,
column lines in field order, the optional sorted `indexes` block, and
the closing brace. -/
def tableBlockLines (opts : Options) (colors : List (String × (String × String)))
    (p : String × Table) : List String :=
  [tableHeadLine opts colors p.1]
    ++ (if p.2.note ≠ "" then
        ["  Note: \x27\x27\x27\n" ++ cleanup_docstring p.2.note ++ "\x27\x27\x27\n"] else [])
    ++ p.2.fields.map renderFieldLine
    ++ (if p.2.indexes ≠ [] then
        ["\n  indexes \x7b"] ++ (sortIdx p.2.indexes).map renderIndexLine ++ ["  \x7d"]
        else [])
    ++ ["\x7d"]

/-- All output blocks one table contributes: its block, then its `ref:`
lines, then the blank separator block. -/
def tableChunk (opts : Options) (colors : List (String × (String × String)))
    (p : String × Table) : List String :=
  tableBlockLines opts colors p ++ renderRelLines p.2.relations ++ ["\n"]

/-- The `Project` block, with or without the timestamp note line. -/
def projectBlock (env : Env) (opts : Options) : String :=
  if ¬ opts.disableUpdateTimestamp then
    "Project \"" ++ opts.projectName ++ "\" \x7b\n  database_type: \x27"
      ++ get_db_type env.engine ++ "\x27\n  Note: \x27\x27\x27" ++ opts.projectNotes
      ++ "\n  Last Updated At " ++ env.now ++ "\x27\x27\x27\n\x7d\n"
  else
    "Project \"" ++ opts.projectName ++ "\" \x7b\n  database_type: \x27"
      ++ get_db_type env.engine ++ "\x27\n  Note: \x27\x27\x27" ++ opts.projectNotes
      ++ "\x27\x27\x27\n\x7d\n"

/-- One `enum` block. -/
def enumBlock (p : String × String) : String :=
  "enum " ++ p.1 ++ " \x7b\n  " ++ p.2 ++ "\n\x7d\n"

/-- Build the `groups` dict from the sorted color/group entries. -/
def buildGroups (colors : List (String × (String × String))) :
    List (String × List String) :=
  (sortPairs colors).foldl (fun acc p =>
    match alFind acc p.2.2 with
    | some l => alInsert acc p.2.2 (l ++ [p.1])
    | none => alInsert acc p.2.2 [p.1]) []

/-- The trailing `TableGroup` blocks (only under `--group_by_app`). -/
def groupBlocks (opts : Options) (colors : List (String × (String × String))) :
    List String :=
  if opts.groupByApp then
    (sortPairs (buildGroups colors)).flatMap (fun g =>
      ["TableGroup " ++ g.1 ++ " \x7b"] ++ g.2.map (fun tn => "  " ++ tn) ++ ["\x7d\n"])
  else []

/-- The `output_blocks` list of `handle`: project block, sorted enum
blocks, sorted table chunks, optional group blocks. -/
def renderBlocks (env : Env) (opts : Options) (st : XState) : List String :=
  [projectBlock env opts]
    ++ (sortPairs st.enums).map enumBlock
    ++ (sortPairs st.tables).flatMap (tableChunk opts st.colors)
    ++ groupBlocks opts st.colors

/-- The final `output_string = '\n'.join(output_blocks)`. -/
def render (env : Env) (opts : Options) (st : XState) : String :=
  strJoin "\n" (renderBlocks env opts st)

/-- Embedding of `Command.handle`: resolve the selection, run the
collection pass, render.  Any raised error aborts before any output
string exists. -/
def handle (env : Env) (opts : Options) (selectors : List String)
    (reg : Registry) : Except String String :=
  match get_app_tables reg selectors with
  | .error e => .error e
  | .ok models =>
    match extract env.toSchemaEnv opts models with
    | .error e => .error e
    | .ok st => .ok (render env opts st)
/-! ### Dictionary lemmas -/

theorem alFind_insert_self {α : Type} (l : List (String × α)) (k : String) (v : α) :
    alFind (alInsert l k v) k = some v := by
  induction l with
  | nil => simp [alInsert, alFind]
  | cons p t ih =>
    obtain ⟨a, w⟩ := p
    by_cases h : a = k
    · simp [alInsert, h, alFind]
    · simp [alInsert, h, alFind, ih]

theorem alFind_insert_ne {α : Type} (l : List (String × α)) (k j : String) (v : α)
    (h : j ≠ k) : alFind (alInsert l k v) j = alFind l j := by
  induction l with
  | nil => simp [alInsert, alFind, Ne.symm h]
  | cons p t ih =>
    obtain ⟨a, w⟩ := p
    by_cases ha : a = k
    · subst ha
      simp [alInsert, alFind, Ne.symm h]
    · simp only [alInsert, if_neg ha, alFind]
      by_cases hj : a = j <;> simp [hj, ih]

theorem alFind_none_iff {α : Type} (l : List (String × α)) (k : String) :
    alFind l k = none ↔ k ∉ alKeys l := by
  induction l with
  | nil => simp [alFind, alKeys]
  | cons p t ih =>
    obtain ⟨a, w⟩ := p
    by_cases h : a = k
    · simp [alFind, h, alKeys]
    · simp [alFind, h, alKeys, ih, Ne.symm h]

theorem alKeys_insert {α : Type} (l : List (String × α)) (k : String) (v : α) :
    alKeys (alInsert l k v) =
      if (alFind l k).isSome then alKeys l else alKeys l ++ [k] := by
  induction l with
  | nil => simp [alInsert, alKeys, alFind]
  | cons p t ih =>
    obtain ⟨a, w⟩ := p
    by_cases h : a = k
    · simp [alInsert, h, alKeys, alFind]
    · simp only [alInsert, if_neg h, alKeys, List.map_cons, alFind]
      by_cases hs : (alFind t k).isSome
      · simp only [hs, if_true] at ih ⊢
        simp [alKeys] at ih
        simp [ih]
      · simp only [hs, if_false] at ih ⊢
        simp [alKeys] at ih
        simp [ih]

theorem mem_alKeys_insert {α : Type} (l : List (String × α)) (k j : String) (v : α) :
    j ∈ alKeys (alInsert l k v) ↔ j ∈ alKeys l ∨ j = k := by
  rw [alKeys_insert]
  by_cases hs : (alFind l k).isSome
  · simp only [hs, if_true]
    constructor
    · exact Or.inl
    · rintro (h | rfl)
      · exact h
      · by_contra hmem
        rw [← alFind_none_iff] at hmem
        simp [hmem] at hs
  · simp [hs, List.mem_append]

theorem nodup_alKeys_insert {α : Type} (l : List (String × α)) (k : String) (v : α)
    (h : (alKeys l).Nodup) : (alKeys (alInsert l k v)).Nodup := by
  rw [alKeys_insert]
  by_cases hs : (alFind l k).isSome
  · simpa [hs] using h
  · have hk : k ∉ alKeys l := by
      rw [← alFind_none_iff]
      cases he : alFind l k
      · rfl
      · simp [he] at hs
    simp only [hs, if_false]
    simpa [List.nodup_append] using ⟨h, hk⟩

theorem alKeys_modify {α : Type} (l : List (String × α)) (k : String) (f : α → α) :
    alKeys (alModify l k f) = alKeys l := by
  induction l with
  | nil => rfl
  | cons p t ih =>
    obtain ⟨a, w⟩ := p
    by_cases h : a = k
    · simp [alModify, h, alKeys]
    · simp only [alKeys] at ih
      simp [alModify, h, alKeys, ih]

theorem alFind_modify_self {α : Type} (l : List (String × α)) (k : String) (f : α → α) :
    alFind (alModify l k f) k = (alFind l k).map f := by
  induction l with
  | nil => rfl
  | cons p t ih =>
    obtain ⟨a, w⟩ := p
    by_cases h : a = k
    · simp [alModify, h, alFind]
    · simp [alModify, h, alFind, ih]

theorem alFind_modify_ne {α : Type} (l : List (String × α)) (k j : String) (f : α → α)
    (h : j ≠ k) : alFind (alModify l k f) j = alFind l j := by
  induction l with
  | nil => rfl
  | cons p t ih =>
    obtain ⟨a, w⟩ := p
    by_cases hp : a = k
    · subst hp
      simp [alModify, alFind, Ne.symm h]
    · simp only [alModify, if_neg hp, alFind]
      by_cases hj : a = j <;> simp [hj, ih]

theorem alInsert_same {α : Type} (l : List (String × α)) (k : String) (v : α)
    (h : alFind l k = some v) : alInsert l k v = l := by
  induction l with
  | nil => simp [alFind] at h
  | cons p t ih =>
    obtain ⟨a, w⟩ := p
    by_cases hp : a = k
    · subst hp
      simp [alFind] at h
      simp [alInsert, ← h]
    · simp [alFind, hp] at h
      simp [alInsert, hp, ih h]

/-! ### Lower-casing lemmas -/

theorem lowerChar_idem (c : Char) : lowerChar (lowerChar c) = lowerChar c := by
  unfold lowerChar
  by_cases h : 65 ≤ c.toNat ∧ c.toNat ≤ 90
  · simp only [h, if_true]
    obtain ⟨h1, h2⟩ := h
    interval_cases h3 : c.toNat <;> simp_all
  · simp [h]

theorem mapLower_idem (l : List Char) :
    (l.map lowerChar).map lowerChar = l.map lowerChar := by
  induction l with
  | nil => rfl
  | cons c cs ih => simp only [List.map_cons, lowerChar_idem, ih]

theorem pyLower_idem (s : String) : pyLower (pyLower s) = pyLower s := by
  simp only [pyLower]
  congr 1
  exact mapLower_idem s.data

/-! ### Concrete fixtures for witnesses and counterexamples -/

/-- Concrete run environment: a Postgres engine, simple deterministic
stand-ins for the schema editor's two name builders and the color hash,
and a fixed timestamp. -/
def envA : Env :=
  { createIndexName := fun t cols => t ++ "_" ++ strJoin "_" cols ++ "_idx",
    uniqueConstraintName := fun t cols => t ++ "_" ++ strJoin "_" cols ++ "_uniq",
    colorHash := fun s => pyLower s ++ "000000",
    engine := "django.db.backends.postgresql",
    now := "10-12-2026 09:30AM UTC" }

/-- The `Category{name}` model of the spec's worked example. -/
def categoryModel : DModel :=
  { appLabel := "testapp", objectName := "Category", dbTable := "testapp_category",
    module := "testapp.models",
    fields := [
      { name := "id", typeName := "AutoField", primaryKey := true },
      { name := "name", typeName := "CharField" } ] }

/-- The `Post{title, content, category→Category}` model of the spec's
worked example (a foreign key carries `db_index=True` in Django). -/
def postModel : DModel :=
  { appLabel := "testapp", objectName := "Post", dbTable := "testapp_post",
    module := "testapp.models",
    fields := [
      { name := "id", typeName := "AutoField", primaryKey := true },
      { name := "title", typeName := "CharField" },
      { name := "content", typeName := "TextField" },
      { name := "category", typeName := "ForeignKey", dbIndex := true,
        kind := .foreignKey "testapp.Category" "testapp_category" "id" } ] }

/-- Registry with a single `testapp` app holding the two models. -/
def regA : Registry := ⟨[⟨"testapp", [categoryModel, postModel]⟩]⟩

/-! ### C4: invalid selectors -/

/-- The lookup failure a single selector token produces on its own:
`none` when it resolves, otherwise the message of the `LookupError` the
run dies with (the app-level one re-raised as `CommandError`, the
model-level one propagating uncaught). -/
def selectorError (reg : Registry) (sel : String) : Option String :=
  match findApp reg ((splitStr '.' sel).headD "") with
  | none => some (appLookupMsg ((splitStr '.' sel).headD ""))
  | some cfg =>
    match (splitStr '.' sel).get? 1 with
    | some ml =>
      match cfg.getModel ml with
      | none => some (modelLookupMsg ((splitStr '.' sel).headD "") ml)
      | some _ => none
    | none => none

theorem getAppTablesLoop_error (reg : Registry) (sel : String) (e : String)
    (hsel : selectorError reg sel = some e) :
    ∀ (pre : List String) (acc : List DModel) (post : List String),
      (∀ p ∈ pre, selectorError reg p = none) →
      getAppTablesLoop reg acc (pre ++ sel :: post) = .error e := by
  intro pre
  induction pre with
  | nil =>
    intro acc post _
    simp only [List.nil_append, getAppTablesLoop]
    simp only [selectorError] at hsel
    cases hf : findApp reg ((splitStr '.' sel).headD "") with
    | none =>
      simp only [hf] at hsel ⊢
      exact congrArg Except.error (Option.some.inj hsel)
    | some cfg =>
      simp only [hf] at hsel ⊢
      cases hml : (splitStr '.' sel).get? 1 with
      | none => simp only [hml] at hsel; exact Option.noConfusion hsel
      | some ml =>
        simp only [hml] at hsel ⊢
        cases hgm : cfg.getModel ml with
        | none =>
          simp only [hgm] at hsel ⊢
          exact congrArg Except.error (Option.some.inj hsel)
        | some mdl => simp only [hgm] at hsel; exact Option.noConfusion hsel
  | cons p pre' ih =>
    intro acc post hpre
    have hp : selectorError reg p = none := hpre p (by simp)
    simp only [selectorError] at hp
    simp only [List.cons_append, getAppTablesLoop]
    cases hf : findApp reg ((splitStr '.' p).headD "") with
    | none => simp only [hf] at hp; exact Option.noConfusion hp
    | some cfg =>
      simp only [hf] at hp ⊢
      cases hml : (splitStr '.' p).get? 1 with
      | none =>
        simp only [hml]
        exact ih (acc ++ cfg.models) post (fun q hq => hpre q (by simp [hq]))
      | some ml =>
        simp only [hml] at hp ⊢
        cases hgm : cfg.getModel ml with
        | none => simp only [hgm] at hp; exact Option.noConfusion hp
        | some mdl =>
          simp only [hgm]
          exact ih (acc ++ [mdl]) post (fun q hq => hpre q (by simp [hq]))

/-- C4: a selection containing an app or app.model token that does not
resolve makes the run fail with the underlying lookup message verbatim,
and `handle` returns no output at all (part 1: any selection error
aborts `handle` with the same message, before rendering; part 2: a
selection whose resolvable tokens are followed by an unresolvable one
errors with exactly that token's lookup message). -/
theorem c4_invalid_selector_fatal :
    (∀ (env : Env) (opts : Options) (sels : List String) (reg : Registry) (e : String),
      get_app_tables reg sels = .error e → handle env opts sels reg = .error e) ∧
    (∀ (reg : Registry) (pre : List String) (sel : String) (post : List String) (e : String),
      (∀ p ∈ pre, selectorError reg p = none) → selectorError reg sel = some e →
      get_app_tables reg (pre ++ sel :: post) = .error e) := by
  constructor
  · intro env opts sels reg e h
    simp [handle, h]
  · intro reg pre sel post e hpre hsel
    have hne : (pre ++ sel :: post).isEmpty = false := by
      cases pre <;> simp [List.isEmpty]
    simp only [get_app_tables, hne, Bool.false_eq_true, if_false]
    exact getAppTablesLoop_error reg sel e hsel pre [] post hpre

/-- Witness for C4: the spec's own example selector `"missingapp"`
aborts the run with Django's lookup message and produces no output. -/
theorem c4_invalid_selector_fatal_witness :
    handle envA {} ["missingapp"] regA =
      .error "No installed app with label \x27missingapp\x27." := by
  have h2 := c4_invalid_selector_fatal.2 regA [] "missingapp" []
    "No installed app with label \x27missingapp\x27."
    (by intro p hp; simp at hp) (by decide)
  exact c4_invalid_selector_fatal.1 envA {} _ regA _ (by simpa using h2)

/-! ### Structure of a successful `processCommon` step -/

theorem processCommon_ok {senv : SchemaEnv} {m : DModel} {tn fieldName : String}
    {f : DField} {st st' : XState}
    (h : processCommon senv m tn fieldName f st = .ok st') :
    ∃ sv' typ en',
      choicesStep st tn (map_field_type_to_dbml_type f.typeName) fieldName f
        = .ok (sv', typ, en') ∧
      st' = { st with
        svars := sv', enums := en',
        tables := alModify st.tables tn (fun t =>
          { t with fields := alInsert t.fields fieldName (commonFdict typ f),
                   indexes := t.indexes ++ commonIdxs senv m fieldName f }) } := by
  cases hcs : choicesStep st tn (map_field_type_to_dbml_type f.typeName) fieldName f with
  | error e =>
    simp only [processCommon, hcs] at h
    exact Except.noConfusion h
  | ok tr =>
    obtain ⟨sv', typ, en'⟩ := tr
    simp only [processCommon, hcs] at h
    exact ⟨sv', typ, en', rfl, (Except.ok.inj h).symm⟩

theorem processCommon_relations {senv : SchemaEnv} {m : DModel} {tn fieldName : String}
    {f : DField} {st st' : XState}
    (h : processCommon senv m tn fieldName f st = .ok st') (j : String) :
    (alFind st'.tables j).map Table.relations
      = (alFind st.tables j).map Table.relations := by
  obtain ⟨sv', typ, en', -, rfl⟩ := processCommon_ok h
  by_cases hj : j = tn
  · subst hj
    rw [alFind_modify_self]
    cases alFind st.tables j <;> rfl
  · rw [alFind_modify_ne _ _ _ _ hj]

/-! ### C2: foreign-key and one-to-one relations -/

/-- Concrete FK field of the worked example (the `category` field of
`Post`). -/
def fkFieldW : DField :=
  { name := "category", typeName := "ForeignKey", dbIndex := true,
    kind := .foreignKey "testapp.Category" "testapp_category" "id" }

/-- Starting state of the C2 witness: the owning table already created
by the model loop. -/
def c2wState : XState := ⟨[], [("testapp.Post", Table.empty)], [], none⟩

/-- Result state of the C2 witness run. -/
def c2wResult : XState :=
  match processField envA.toSchemaEnv {} postModel "testapp.Post" "" "testapp" c2wState fkFieldW with
  | .ok s => s
  | .error _ => XState.init

/-- C2: a single-valued foreign-key (resp. one-to-one) field that is
processed successfully records exactly one new relation, appended to the
owning table's list: its `from` side is the referenced table with the
target column, its `to` side is the owning table, its link column is the
field name with the `_id` suffix, and no other table's relations change.
The relation type string is `one_to_many` for FK, `one_to_one` for O2O. -/
theorem c2_fk_relation :
    (∀ (senv : SchemaEnv) (opts : Options) (m : DModel) (tn color tl : String)
      (st st' : XState) (f : DField) (rl rdb tf : String) (t0 : Table),
      f.kind = .foreignKey rl rdb tf →
      processField senv opts m tn color tl st f = .ok st' →
      alFind st.tables tn = some t0 →
      (∃ t1, alFind st'.tables tn = some t1 ∧
        t1.relations = t0.relations ++
          [{ type := "one_to_many", tableFrom := refName opts rl rdb,
             tableFromField := tf, tableTo := tn, tableToField := f.name ++ "_id" }]) ∧
      (∀ j, j ≠ tn → (alFind st'.tables j).map Table.relations
        = (alFind st.tables j).map Table.relations)) ∧
    (∀ (senv : SchemaEnv) (opts : Options) (m : DModel) (tn color tl : String)
      (st st' : XState) (f : DField) (rl rdb tf : String) (t0 : Table),
      f.kind = .oneToOne rl rdb tf →
      processField senv opts m tn color tl st f = .ok st' →
      alFind st.tables tn = some t0 →
      (∃ t1, alFind st'.tables tn = some t1 ∧
        t1.relations = t0.relations ++
          [{ type := "one_to_one", tableFrom := refName opts rl rdb,
             tableFromField := tf, tableTo := tn, tableToField := f.name ++ "_id" }]) ∧
      (∀ j, j ≠ tn → (alFind st'.tables j).map Table.relations
        = (alFind st.tables j).map Table.relations)) := by
  constructor
  · intro senv opts m tn color tl st st' f rl rdb tf t0 hk hpf hfind
    simp only [processField, hk] at hpf
    constructor
    · have h1 := processCommon_relations hpf tn
      have h2 : (alFind (addRel st tn
          { type := "one_to_many", tableFrom := refName opts rl rdb, tableFromField := tf,
            tableTo := tn, tableToField := f.name ++ "_id" }).tables tn).map Table.relations
          = some (t0.relations ++
            [{ type := "one_to_many", tableFrom := refName opts rl rdb, tableFromField := tf,
               tableTo := tn, tableToField := f.name ++ "_id" }]) := by
        simp [addRel, alFind_modify_self, hfind]
      rw [h2] at h1
      obtain ⟨t1, ht1, hrel⟩ := Option.map_eq_some'.mp h1
      exact ⟨t1, ht1, hrel⟩
    · intro j hj
      have h1 := processCommon_relations hpf j
      rw [h1]
      simp only [addRel]
      rw [alFind_modify_ne _ _ _ _ hj]
  · intro senv opts m tn color tl st st' f rl rdb tf t0 hk hpf hfind
    simp only [processField, hk] at hpf
    constructor
    · have h1 := processCommon_relations hpf tn
      have h2 : (alFind (addRel st tn
          { type := "one_to_one", tableFrom := refName opts rl rdb, tableFromField := tf,
            tableTo := tn, tableToField := f.name ++ "_id" }).tables tn).map Table.relations
          = some (t0.relations ++
            [{ type := "one_to_one", tableFrom := refName opts rl rdb, tableFromField := tf,
               tableTo := tn, tableToField := f.name ++ "_id" }]) := by
        simp [addRel, alFind_modify_self, hfind]
      rw [h2] at h1
      obtain ⟨t1, ht1, hrel⟩ := Option.map_eq_some'.mp h1
      exact ⟨t1, ht1, hrel⟩
    · intro j hj
      have h1 := processCommon_relations hpf j
      rw [h1]
      simp only [addRel]
      rw [alFind_modify_ne _ _ _ _ hj]

/-- Witness for C2: processing the worked example's `category` foreign
key from a state holding only the empty `testapp.Post` table records
exactly the one reversed relation with the `_id` link column. -/
theorem c2_fk_relation_witness :
    (alFind c2wResult.tables "testapp.Post").map Table.relations =
      some [{ type := "one_to_many", tableFrom := "testapp.Category",
              tableFromField := "id", tableTo := "testapp.Post",
              tableToField := "category_id" }] := by
  obtain ⟨⟨t1, hf1, hr1⟩, -⟩ := c2_fk_relation.1 envA.toSchemaEnv {} postModel
    "testapp.Post" "" "testapp" c2wState c2wResult fkFieldW
    "testapp.Category" "testapp_category" "id" Table.empty rfl (by decide) (by decide)
  rw [hf1]
  simp [hr1, Table.empty, refName, fkFieldW]

/-! ### C10: partiality of the choices branch -/

theorem splitCh_ne_nil (sep : Char) : ∀ (l : List Char), splitCh sep l ≠ []
  | [] => by simp [splitCh]
  | c :: cs => by
    simp only [splitCh]
    by_cases h : c = sep
    · simp [h]
    · simp only [if_neg h]
      cases hr : splitCh sep cs with
      | nil => exact absurd hr (splitCh_ne_nil sep cs)
      | cons g gs => simp

theorem splitCh_length (sep : Char) : ∀ (l : List Char),
    (splitCh sep l).length = l.count sep + 1
  | [] => by simp [splitCh]
  | c :: cs => by
    simp only [splitCh]
    by_cases h : c = sep
    · simp [h, splitCh_length sep cs, List.count_cons]
    · simp only [if_neg h]
      cases hr : splitCh sep cs with
      | nil => exact absurd hr (splitCh_ne_nil sep cs)
      | cons g gs =>
        have hl := splitCh_length sep cs
        rw [hr] at hl
        simp only [List.length_cons] at hl ⊢
        simp [List.count_cons, h]
        omega

theorem contains_of_count_pos : ∀ (l : List Char) (c : Char),
    0 < l.count c → l.contains c = true := by
  intro l c h
  have hm : c ∈ l := List.count_pos_iff.mp h
  simpa using hm

/-- The `status` field of the test project's `Post` model: a char field
with two choices and a default. -/
def statusFieldW : DField :=
  { name := "status", typeName := "CharField",
    choices := [("draft", "Draft"), ("published", "Published")],
    default? := some (.str "draft") }

/-- C10: the choices branch is total only under a precondition on the
enclosing table name.  (1) With neither a dot nor an underscore in the
table name, the unpack statements are skipped and the locals keep their
previous (possibly stale) value; (2) if additionally the locals were
never assigned, the branch dies with a `NameError`; (3) a table name
with no dot and two or more underscores (reachable under
`--table_names`) makes the 2-way unpack raise `ValueError`; (4) whenever
the unpack succeeds with assigned locals, the table name either split in
two at a dot, or split in two at an underscore, or the locals are stale
values from an earlier field. -/
theorem c10_enum_branch_totality :
    (∀ (sv : Option (String × String)) (tn : String),
      strContainsCh tn '.' = false → strContainsCh tn '_' = false →
      updateSvars sv tn = .ok sv) ∧
    (∀ (st : XState) (tn baseType fieldName : String) (f : DField),
      f.choices ≠ [] → st.svars = none →
      strContainsCh tn '.' = false → strContainsCh tn '_' = false →
      choicesStep st tn baseType fieldName f =
        .error "NameError: name \x27schema_name\x27 is not defined") ∧
    (∀ (sv : Option (String × String)) (tn : String),
      strContainsCh tn '.' = false → 2 ≤ tn.data.count '_' →
      updateSvars sv tn =
        .error "ValueError: not enough (or too many) values to unpack") ∧
    (∀ (sv : Option (String × String)) (tn : String) (p : String × String),
      updateSvars sv tn = .ok (some p) →
      (strContainsCh tn '.' = true ∧ (splitStr '.' tn).length = 2) ∨
      (strContainsCh tn '.' = false ∧ strContainsCh tn '_' = true ∧
        (splitStr '_' tn).length = 2) ∨
      (strContainsCh tn '.' = false ∧ strContainsCh tn '_' = false ∧ sv = some p)) := by
  refine ⟨?_, ?_, ?_, ?_⟩
  · intro sv tn hdot hund
    simp only [updateSvars, hdot, hund, Bool.false_eq_true, if_false]
  · intro st tn baseType fieldName f hch hsv hdot hund
    have h1 : updateSvars st.svars tn = .ok st.svars := by
      simp only [updateSvars, hdot, hund, Bool.false_eq_true, if_false]
    rw [hsv] at h1
    simp only [choicesStep, if_pos hch, h1, hsv]
  · intro sv tn hdot hcnt
    have hund : strContainsCh tn '_' = true :=
      contains_of_count_pos tn.data '_' (by omega)
    have hlen : 3 ≤ (splitStr '_' tn).length := by
      simp only [splitStr, List.length_map, splitCh_length]
      omega
    obtain ⟨a, b, c, rest, hsp⟩ :
        ∃ a b c rest, splitStr '_' tn = a :: b :: c :: rest := by
      cases h1 : splitStr '_' tn with
      | nil => rw [h1] at hlen; simp at hlen
      | cons a t1 =>
        cases h2 : t1 with
        | nil => rw [h1, h2] at hlen; simp at hlen
        | cons b t2 =>
          cases h3 : t2 with
          | nil => rw [h1, h2, h3] at hlen; simp at hlen
          | cons c t3 => exact ⟨a, b, c, t3, by simp [h1, h2, h3]⟩
    simp only [updateSvars, hdot, Bool.false_eq_true, if_false, hund, if_true, hsp]
  · intro sv tn p hok
    by_cases hdot : strContainsCh tn '.' = true
    · left
      refine ⟨hdot, ?_⟩
      simp only [updateSvars, hdot, if_true] at hok
      rcases h1 : splitStr '.' tn with - | ⟨a, - | ⟨b, - | ⟨c, rest⟩⟩⟩ <;>
        rw [h1] at hok <;> first
          | exact Except.noConfusion hok
          | simp [h1]
    · have hdot' : strContainsCh tn '.' = false := by
        cases h : strContainsCh tn '.'
        · rfl
        · exact absurd h hdot
      by_cases hund : strContainsCh tn '_' = true
      · right; left
        refine ⟨hdot', hund, ?_⟩
        simp only [updateSvars, hdot', Bool.false_eq_true, if_false, hund, if_true] at hok
        rcases h1 : splitStr '_' tn with - | ⟨a, - | ⟨b, - | ⟨c, rest⟩⟩⟩ <;>
          rw [h1] at hok <;> first
            | exact Except.noConfusion hok
            | simp [h1]
      · have hund' : strContainsCh tn '_' = false := by
          cases h : strContainsCh tn '_'
          · rfl
          · exact absurd h hund
        right; right
        refine ⟨hdot', hund', ?_⟩
        simp only [updateSvars, hdot', hund', Bool.false_eq_true, if_false] at hok
        exact Except.ok.inj hok

/-- Witness for C10: concrete instances of all four parts — a stale
pass-through on `"post"`, the `NameError` on unassigned locals, the
`ValueError` on the two-underscore storage name `"auth_user_groups"`,
and a successful dot unpack on `"app.Model"`. -/
theorem c10_enum_branch_totality_witness :
    updateSvars (some ("auth", "user")) "post" = .ok (some ("auth", "user")) ∧
    choicesStep ⟨[], [], [], none⟩ "post" "char" "status" statusFieldW =
      .error "NameError: name \x27schema_name\x27 is not defined" ∧
    updateSvars none "auth_user_groups" =
      .error "ValueError: not enough (or too many) values to unpack" ∧
    ((strContainsCh "app.Model" '.' = true ∧ (splitStr '.' "app.Model").length = 2) ∨
      (strContainsCh "app.Model" '.' = false ∧ strContainsCh "app.Model" '_' = true ∧
        (splitStr '_' "app.Model").length = 2) ∨
      (strContainsCh "app.Model" '.' = false ∧ strContainsCh "app.Model" '_' = false ∧
        (none : Option (String × String)) = some ("app", "Model"))) :=
  ⟨c10_enum_branch_totality.1 (some ("auth", "user")) "post" (by decide) (by decide),
   c10_enum_branch_totality.2.1 ⟨[], [], [], none⟩ "post" "char" "status" statusFieldW
     (by decide) rfl (by decide) (by decide),
   c10_enum_branch_totality.2.2.1 none "auth_user_groups" (by decide) (by decide),
   c10_enum_branch_totality.2.2.2 none "app.Model" ("app", "Model") (by decide)⟩

/-! ### C6: the emitted type tag -/

/-- Look up the type tag recorded for a column of a table in the
extraction state. -/
def fieldTypeIn (st : XState) (tn fn : String) : Option String :=
  match alFind st.tables tn with
  | some t =>
    match alFind t.fields fn with
    | some fd => some (fdType fd)
    | none => none
  | none => none

/-- Model `Alpha` with one choice-bearing `status` char field. -/
def alphaModel : DModel :=
  { appLabel := "app", objectName := "Alpha", dbTable := "app_alpha",
    module := "app.models", fields := [statusFieldW] }

/-- Model `Beta`, identical to `Alpha` except for its name. -/
def betaModel : DModel :=
  { appLabel := "app", objectName := "Beta", dbTable := "app_beta",
    module := "app.models", fields := [statusFieldW] }

/-- Extraction state of the two-model counterexample run. -/
def c6Result : XState :=
  match extract envA.toSchemaEnv {} [alphaModel, betaModel] with
  | .ok s => s
  | .error _ => XState.init

/-- Counterexample to C6 as stated: two models declare the very same
field (same declared type `CharField`, same choices), yet the emitted
type tags differ, because a choice-bearing column's tag is rewritten to
an enum name derived from the enclosing table's name.  The tag is
therefore not a pure function of the declared field type. -/
theorem c6_type_tag_counterexample :
    alphaModel.fields = betaModel.fields ∧
    fieldTypeIn c6Result "app.Alpha" "status" = some "app.char_alpha_status" ∧
    fieldTypeIn c6Result "app.Beta" "status" = some "app.char_beta_status" ∧
    fieldTypeIn c6Result "app.Alpha" "status" ≠ fieldTypeIn c6Result "app.Beta" "status" := by
  decide

/-- C6 amended: for every field *without choices* the recorded type tag
is `map_field_type_to_dbml_type` of the declared type name alone — a
pure function of the declared type, independent of the state, of other
fields, and of the model — and that transform collapses the
letter-by-letter splits of `IP`, `URL`, `UUID` and `JSON` back into
single tokens. -/
theorem c6_type_tag_amended :
    (∀ (senv : SchemaEnv) (m : DModel) (tn fieldName : String) (f : DField)
      (st st' : XState) (t0 : Table),
      f.choices = [] →
      processCommon senv m tn fieldName f st = .ok st' →
      alFind st.tables tn = some t0 →
      ∃ t1, alFind st'.tables tn = some t1 ∧
        alFind t1.fields fieldName =
          some (commonFdict (map_field_type_to_dbml_type f.typeName) f) ∧
        fdType (commonFdict (map_field_type_to_dbml_type f.typeName) f) =
          map_field_type_to_dbml_type f.typeName) ∧
    map_field_type_to_dbml_type "GenericIPAddressField" = "generic_ip_address" ∧
    map_field_type_to_dbml_type "URLField" = "url" ∧
    map_field_type_to_dbml_type "UUIDField" = "uuid" ∧
    map_field_type_to_dbml_type "JSONField" = "json" := by
  refine ⟨?_, by decide, by decide, by decide, by decide⟩
  intro senv m tn fieldName f st st' t0 hch hpc hfind
  obtain ⟨sv', typ, en', hcs, rfl⟩ := processCommon_ok hpc
  have hcs' : choicesStep st tn (map_field_type_to_dbml_type f.typeName) fieldName f
      = .ok (st.svars, map_field_type_to_dbml_type f.typeName, st.enums) := by
    simp [choicesStep, hch]
  have h' := Except.ok.inj (hcs'.symm.trans hcs)
  have h2 : typ = map_field_type_to_dbml_type f.typeName :=
    (congrArg (fun x => x.2.1) h').symm
  subst h2
  refine ⟨{ t0 with
      fields := alInsert t0.fields fieldName (commonFdict (map_field_type_to_dbml_type f.typeName) f),
      indexes := t0.indexes ++ commonIdxs senv m fieldName f }, ?_, ?_, ?_⟩
  · show alFind (alModify st.tables tn _) tn = _
    rw [alFind_modify_self, hfind]
    rfl
  · exact alFind_insert_self _ _ _
  · simp [commonFdict, fdType, alFind]

/-- Starting state of the C6 witness: the `testapp.Category` table
already created. -/
def c6wState : XState := ⟨[], [("testapp.Category", Table.empty)], [], none⟩

/-- Result of processing `Category.name` (a plain `CharField`, no
choices) in the C6 witness run. -/
def c6wResult : XState :=
  match processCommon envA.toSchemaEnv categoryModel "testapp.Category" "name"
      { name := "name", typeName := "CharField" } c6wState with
  | .ok s => s
  | .error _ => XState.init

/-- Witness for the amended C6: the recorded tag for `Category.name` is
exactly the pure transform of `"CharField"`. -/
theorem c6_type_tag_amended_witness :
    fieldTypeIn c6wResult "testapp.Category" "name" = some "char" := by
  obtain ⟨t1, hf, hfd, hty⟩ := c6_type_tag_amended.1 envA.toSchemaEnv categoryModel
    "testapp.Category" "name" { name := "name", typeName := "CharField" }
    c6wState c6wResult Table.empty rfl (by decide) (by decide)
  have hc : map_field_type_to_dbml_type "CharField" = "char" := by decide
  simp only [fieldTypeIn, hf, hfd]
  decide

/-! ### C1: many-to-many linking tables -/

/-- Ghost-annotated m2m descriptor: the intermediate model *is*
user-supplied (`through=` on the field), yet its model name contains an
underscore (a user class named e.g. `Post_Tag`). -/
def c1cxInfo : M2MInfo :=
  { throughKind := .explicit, throughModelName := "post_tag",
    m2mDbTable := "blog_post_tag", m2mColumnName := "post_id",
    m2mReverseName := "tag_id", m2mTargetFieldName := "id",
    m2mReverseTargetFieldName := "id",
    relatedLabel := "blog.Tag", relatedDbTable := "blog_tag" }

/-- The auto-generated counterpart (Django names it
`<ObjectName>_<field>`, so the name always contains an underscore). -/
def c1wInfoAuto : M2MInfo :=
  { throughKind := .auto, throughModelName := "post_tags",
    m2mDbTable := "blog_post_tags", m2mColumnName := "post_id",
    m2mReverseName := "tag_id", m2mTargetFieldName := "id",
    m2mReverseTargetFieldName := "id",
    relatedLabel := "blog.Tag", relatedDbTable := "blog_tag" }

/-- A user-supplied through model whose class name has no underscore. -/
def c1wInfoExplicit : M2MInfo :=
  { throughKind := .explicit, throughModelName := "membership",
    m2mDbTable := "blog_membership", m2mColumnName := "post_id",
    m2mReverseName := "tag_id", m2mTargetFieldName := "id",
    m2mReverseTargetFieldName := "id",
    relatedLabel := "blog.Tag", relatedDbTable := "blog_tag" }

/-- Owning model for the m2m runs. -/
def blogPost : DModel :=
  { appLabel := "blog", objectName := "Post", dbTable := "blog_post",
    module := "blog.models",
    fields := [{ name := "tags", typeName := "ManyToManyField",
                 kind := .manyToMany c1wInfoAuto }] }

/-- Starting state for the m2m runs: only the owning table exists. -/
def c1State : XState := ⟨[], [("blog.Post", Table.empty)], [], none⟩

/-- Result of processing the user-supplied-through field whose model
name contains an underscore. -/
def c1cxResult : XState :=
  match processField envA.toSchemaEnv {} blogPost "blog.Post" "" "blog" c1State
      { name := "tags", typeName := "ManyToManyField", kind := .manyToMany c1cxInfo } with
  | .ok s => s
  | .error _ => XState.init

/-- Result of processing the auto-through field. -/
def c1wResult : XState :=
  match processField envA.toSchemaEnv {} blogPost "blog.Post" "" "blog" c1State
      { name := "tags", typeName := "ManyToManyField", kind := .manyToMany c1wInfoAuto } with
  | .ok s => s
  | .error _ => XState.init

/-- Counterexample to C1 as stated: a many-to-many field whose
intermediate model is user-supplied (ghost flag `.explicit`) but whose
model name contains an underscore still gets a synthetic linking table —
the code only tests the name, so "explicit through produces zero
synthetic tables" fails on through models named with an underscore. -/
theorem c1_m2m_counterexample :
    c1cxInfo.throughKind = .explicit ∧
    alFind c1State.tables "blog.post_tag" = none ∧
    (alFind c1cxResult.tables "blog.post_tag").isSome = true := by
  decide

/-- C1 amended: the user-supplied/auto distinction is implemented as an
underscore test on the through model's name.  (1) A through model name
without an underscore (every conventionally named user-supplied
intermediate) adds nothing — the state is returned unchanged.  (2) A
through model name with an underscore (in particular every
auto-generated intermediate) creates, on first encounter, exactly one
synthetic linking table holding exactly three columns — surrogate `id`
plus the two link columns — and exactly two one-to-many relations from
the linking table to each side.  (3) On a later encounter of the same
linking-table name nothing is added. -/
theorem c1_m2m_amended :
    (∀ (senv : SchemaEnv) (opts : Options) (m : DModel) (tn color tl : String)
      (st : XState) (f : DField) (i : M2MInfo),
      f.kind = .manyToMany i → strContainsCh i.throughModelName '_' = false →
      processField senv opts m tn color tl st f = .ok st) ∧
    (∀ (senv : SchemaEnv) (opts : Options) (m : DModel) (tn color tl : String)
      (st : XState) (f : DField) (i : M2MInfo),
      f.kind = .manyToMany i → strContainsCh i.throughModelName '_' = true →
      alFind st.tables (m2mLinkName i) = none →
      i.m2mReverseName ≠ "id" → i.m2mColumnName ≠ "id" →
      i.m2mColumnName ≠ i.m2mReverseName →
      processField senv opts m tn color tl st f = .ok { st with
        tables := alInsert st.tables (m2mLinkName i)
          (m2mTable senv opts m i (m2mLinkName i)),
        colors := alInsert st.colors (m2mLinkName i) (color, tl) } ∧
      (m2mTable senv opts m i (m2mLinkName i)).fields =
        [("id", [("pk", .b true), ("type", .s "auto")]),
         (i.m2mReverseName, [("type", .s "auto")]),
         (i.m2mColumnName, [("type", .s "auto")])] ∧
      (m2mTable senv opts m i (m2mLinkName i)).relations =
        [{ type := "one_to_many", tableFrom := m2mLinkName i,
           tableFromField := i.m2mColumnName, tableTo := get_table_name opts m,
           tableToField := i.m2mTargetFieldName },
         { type := "one_to_many", tableFrom := m2mLinkName i,
           tableFromField := i.m2mReverseName,
           tableTo := refName opts i.relatedLabel i.relatedDbTable,
           tableToField := i.m2mReverseTargetFieldName }]) ∧
    (∀ (senv : SchemaEnv) (opts : Options) (m : DModel) (tn color tl : String)
      (st : XState) (f : DField) (i : M2MInfo) (t : Table),
      f.kind = .manyToMany i → strContainsCh i.throughModelName '_' = true →
      alFind st.tables (m2mLinkName i) = some t →
      processField senv opts m tn color tl st f = .ok st) := by
  refine ⟨?_, ?_, ?_⟩
  · intro senv opts m tn color tl st f i hk hund
    simp only [processField, hk, processM2M, hund]
    simp
  · intro senv opts m tn color tl st f i hk hund hfresh hne1 hne2 hne3
    refine ⟨?_, ?_, ?_⟩
    · simp only [processField, hk, processM2M]
      rw [if_neg (by simp [hund]), hfresh]
      simp
    · simp only [m2mTable]
      simp [alInsert, Ne.symm hne1, Ne.symm hne2, Ne.symm hne3]
    · rfl
  · intro senv opts m tn color tl st f i t hk hund hpresent
    simp only [processField, hk, processM2M]
    rw [if_neg (by simp [hund]), hpresent]
    simp

/-- Witness for the amended C1: the no-underscore explicit through adds
nothing; the auto through creates the linking table with exactly three
columns and two relations; reprocessing the same field changes nothing. -/
theorem c1_m2m_amended_witness :
    processField envA.toSchemaEnv {} blogPost "blog.Post" "" "blog" c1State
        { name := "tags", typeName := "ManyToManyField", kind := .manyToMany c1wInfoExplicit }
      = .ok c1State ∧
    (alFind c1wResult.tables (m2mLinkName c1wInfoAuto)).map (fun t => t.fields.length)
      = some 3 ∧
    (alFind c1wResult.tables (m2mLinkName c1wInfoAuto)).map (fun t => t.relations.length)
      = some 2 ∧
    processField envA.toSchemaEnv {} blogPost "blog.Post" "" "blog" c1wResult
        { name := "tags", typeName := "ManyToManyField", kind := .manyToMany c1wInfoAuto }
      = .ok c1wResult := by
  obtain ⟨hok, hf, hr⟩ := c1_m2m_amended.2.1 envA.toSchemaEnv {} blogPost "blog.Post" "" "blog"
    c1State { name := "tags", typeName := "ManyToManyField", kind := .manyToMany c1wInfoAuto }
    c1wInfoAuto rfl (by decide) (by decide) (by decide) (by decide) (by decide)
  have hres : c1wResult = { c1State with
      tables := alInsert c1State.tables (m2mLinkName c1wInfoAuto)
        (m2mTable envA.toSchemaEnv {} blogPost c1wInfoAuto (m2mLinkName c1wInfoAuto)),
      colors := alInsert c1State.colors (m2mLinkName c1wInfoAuto) ("", "blog") } := by
    simp only [c1wResult, hok]
  refine ⟨?_, ?_, ?_, ?_⟩
  · exact c1_m2m_amended.1 envA.toSchemaEnv {} blogPost "blog.Post" "" "blog" c1State
      { name := "tags", typeName := "ManyToManyField", kind := .manyToMany c1wInfoExplicit }
      c1wInfoExplicit rfl (by decide)
  · rw [hres]
    simp [alFind_insert_self, hf]
  · rw [hres]
    simp [alFind_insert_self, hr]
  · refine c1_m2m_amended.2.2 envA.toSchemaEnv {} blogPost "blog.Post" "" "blog" c1wResult
      { name := "tags", typeName := "ManyToManyField", kind := .manyToMany c1wInfoAuto }
      c1wInfoAuto (m2mTable envA.toSchemaEnv {} blogPost c1wInfoAuto (m2mLinkName c1wInfoAuto))
      rfl (by decide) ?_
    rw [hres]
    exact alFind_insert_self _ _ _

/-! ### C7: enum names and idempotence -/

/-- Invariant carried through the extraction pass: the enums dict has
pairwise-distinct keys and every key is already lower-case. -/
def EnumsGood (st : XState) : Prop :=
  (alKeys st.enums).Nodup ∧ ∀ n ∈ alKeys st.enums, pyLower n = n

theorem bool_eq_false {b : Bool} (h : ¬ b = true) : b = false := by
  cases b
  · rfl
  · exact absurd rfl h

theorem choicesStep_enums_shape {st : XState} {tn b fn : String} {f : DField}
    {sv' : Option (String × String)} {typ : String} {en' : List (String × String)}
    (h : choicesStep st tn b fn f = .ok (sv', typ, en')) :
    en' = st.enums ∨
      ∃ raw body, typ = pyLower raw ∧ en' = alInsert st.enums (pyLower raw) body := by
  by_cases hch : f.choices = []
  · left
    have hthis : choicesStep st tn b fn f = .ok (st.svars, b, st.enums) := by
      simp [choicesStep, hch]
    exact (congrArg (fun x => x.2.2) (Except.ok.inj (hthis.symm.trans h))).symm
  · simp only [choicesStep, if_pos hch] at h
    cases hu : updateSvars st.svars tn with
    | error e => rw [hu] at h; exact Except.noConfusion h
    | ok svr =>
      rw [hu] at h
      cases svr with
      | none => exact Except.noConfusion h
      | some pq =>
        obtain ⟨s, mo⟩ := pq
        have h' := Except.ok.inj h
        right
        refine ⟨s ++ "." ++ b ++ "_" ++ mo ++ "_" ++ fn,
          renderEnumBody (get_enum_choices f), ?_, ?_⟩
        · exact (congrArg (fun x => x.2.1) h').symm
        · exact (congrArg (fun x => x.2.2) h').symm

theorem enumsGood_insert_lower {en : List (String × String)} (raw body : String)
    (h1 : (alKeys en).Nodup) (h2 : ∀ n ∈ alKeys en, pyLower n = n) :
    (alKeys (alInsert en (pyLower raw) body)).Nodup ∧
      ∀ n ∈ alKeys (alInsert en (pyLower raw) body), pyLower n = n := by
  refine ⟨nodup_alKeys_insert _ _ _ h1, ?_⟩
  intro n hn
  rcases (mem_alKeys_insert _ _ _ _).mp hn with hmem | rfl
  · exact h2 n hmem
  · exact pyLower_idem raw

theorem processCommon_enumsGood {senv : SchemaEnv} {m : DModel} {tn fn : String}
    {f : DField} {st st' : XState}
    (h : processCommon senv m tn fn f st = .ok st') (hg : EnumsGood st) :
    EnumsGood st' := by
  obtain ⟨sv', typ, en', hcs, rfl⟩ := processCommon_ok h
  rcases choicesStep_enums_shape hcs with he | ⟨raw, body, -, he⟩
  · unfold EnumsGood
    constructor
    · show (alKeys en').Nodup
      rw [he]
      exact hg.1
    · show ∀ n ∈ alKeys en', pyLower n = n
      rw [he]
      exact hg.2
  · have hx := enumsGood_insert_lower raw body hg.1 hg.2
    unfold EnumsGood
    constructor
    · show (alKeys en').Nodup
      rw [he]
      exact hx.1
    · show ∀ n ∈ alKeys en', pyLower n = n
      rw [he]
      exact hx.2

theorem processM2M_enums (senv : SchemaEnv) (opts : Options) (m : DModel)
    (tl color : String) (i : M2MInfo) (st : XState) :
    (processM2M senv opts m tl color i st).enums = st.enums := by
  simp only [processM2M]
  split
  · rfl
  · split <;> rfl

theorem processField_enumsGood {senv : SchemaEnv} {opts : Options} {m : DModel}
    {tn color tl : String} {st st' : XState} {f : DField}
    (h : processField senv opts m tn color tl st f = .ok st') (hg : EnumsGood st) :
    EnumsGood st' := by
  cases hk : f.kind with
  | reverseRel =>
    simp only [processField, hk] at h
    rw [← Except.ok.inj h]
    exact hg
  | oneToOne rl rdb tf =>
    simp only [processField, hk] at h
    exact processCommon_enumsGood h hg
  | foreignKey rl rdb tf =>
    simp only [processField, hk] at h
    exact processCommon_enumsGood h hg
  | manyToMany i =>
    simp only [processField, hk] at h
    rw [← Except.ok.inj h]
    unfold EnumsGood
    rw [processM2M_enums]
    exact hg
  | plain =>
    simp only [processField, hk] at h
    exact processCommon_enumsGood h hg

theorem processFields_enumsGood (senv : SchemaEnv) (opts : Options) (m : DModel)
    (tn color tl : String) : ∀ (fs : List DField) (st st' : XState),
    processFields senv opts m tn color tl st fs = .ok st' → EnumsGood st → EnumsGood st'
  | [], st, st', h, hg => by
    simp only [processFields] at h
    rw [← Except.ok.inj h]
    exact hg
  | f :: fs, st, st', h, hg => by
    simp only [processFields] at h
    cases hpf : processField senv opts m tn color tl st f with
    | error e => rw [hpf] at h; exact Except.noConfusion h
    | ok st1 =>
      rw [hpf] at h
      exact processFields_enumsGood senv opts m tn color tl fs st1 st' h
        (processField_enumsGood hpf hg)

theorem processModel_enumsGood {senv : SchemaEnv} {opts : Options} {st st' : XState}
    {m : DModel} (h : processModel senv opts st m = .ok st') (hg : EnumsGood st) :
    EnumsGood st' := by
  simp only [processModel] at h
  cases hpf : processFields senv opts m (get_table_name opts m)
      (if opts.colorByApp then "#" ++ strTake (senv.colorHash (get_tl_module_name m)) 6 else "")
      (get_tl_module_name m)
      { st with
        tables := alInsert st.tables (get_table_name opts m) Table.empty,
        colors := alInsert st.colors (get_table_name opts m)
          ((if opts.colorByApp then "#" ++ strTake (senv.colorHash (get_tl_module_name m)) 6 else ""),
            get_tl_module_name m) } m.fields with
  | error e => rw [hpf] at h; exact Except.noConfusion h
  | ok st1 =>
    rw [hpf] at h
    have hg1 : EnumsGood st1 :=
      processFields_enumsGood senv opts m _ _ _ m.fields _ st1 hpf hg
    rw [← Except.ok.inj h]
    exact hg1

theorem processModels_enumsGood (senv : SchemaEnv) (opts : Options) :
    ∀ (ms : List DModel) (st st' : XState),
    processModels senv opts st ms = .ok st' → EnumsGood st → EnumsGood st'
  | [], st, st', h, hg => by
    simp only [processModels] at h
    rw [← Except.ok.inj h]
    exact hg
  | m :: ms, st, st', h, hg => by
    simp only [processModels] at h
    cases hpm : processModel senv opts st m with
    | error e => rw [hpm] at h; exact Except.noConfusion h
    | ok st1 =>
      rw [hpm] at h
      exact processModels_enumsGood senv opts ms st1 st' h (processModel_enumsGood hpm hg)

theorem extract_enumsGood {senv : SchemaEnv} {opts : Options} {models : List DModel}
    {st : XState} (h : extract senv opts models = .ok st) : EnumsGood st :=
  processModels_enumsGood senv opts models XState.init st h
    ⟨List.nodup_nil, fun n hn => absurd hn (by simp [XState.init, alKeys])⟩

theorem updateSvars_ok_idem (sv p : Option (String × String)) (tn : String)
    (h : updateSvars sv tn = .ok p) : updateSvars p tn = .ok p := by
  by_cases hdot : strContainsCh tn '.' = true
  · simp only [updateSvars, hdot, if_true] at h ⊢
    exact h
  · have hdot' := bool_eq_false hdot
    by_cases hund : strContainsCh tn '_' = true
    · simp only [updateSvars, hdot', Bool.false_eq_true, if_false, hund, if_true] at h ⊢
      exact h
    · have hund' := bool_eq_false hund
      simp only [updateSvars, hdot', hund', Bool.false_eq_true, if_false] at h ⊢

theorem choicesStep_idem {st st1 : XState} {tn b fn : String} {f : DField}
    {sv' : Option (String × String)} {typ : String} {en' : List (String × String)}
    (h : choicesStep st tn b fn f = .ok (sv', typ, en'))
    (hsv : st1.svars = sv') (hen : st1.enums = en') :
    choicesStep st1 tn b fn f = .ok (sv', typ, en') := by
  by_cases hch : f.choices = []
  · have h0 : choicesStep st tn b fn f = .ok (st.svars, b, st.enums) := by
      simp [choicesStep, hch]
    have h' := Except.ok.inj (h0.symm.trans h)
    have e2 : typ = b := (congrArg (fun x => x.2.1) h').symm
    simp only [choicesStep]
    rw [if_neg (by simp [hch])]
    simp [hsv, hen, e2]
  · simp only [choicesStep, if_pos hch] at h ⊢
    cases hu : updateSvars st.svars tn with
    | error e => rw [hu] at h; exact Except.noConfusion h
    | ok svr =>
      rw [hu] at h
      cases svr with
      | none => exact Except.noConfusion h
      | some pq =>
        obtain ⟨s, mo⟩ := pq
        have h' := Except.ok.inj h
        have e1 : sv' = some (s, mo) := (congrArg (fun x => x.1) h').symm
        have e2 : typ = pyLower (s ++ "." ++ b ++ "_" ++ mo ++ "_" ++ fn) :=
          (congrArg (fun x => x.2.1) h').symm
        have e3 : en' = alInsert st.enums (pyLower (s ++ "." ++ b ++ "_" ++ mo ++ "_" ++ fn))
            (renderEnumBody (get_enum_choices f)) :=
          (congrArg (fun x => x.2.2) h').symm
        have hu2 : updateSvars st1.svars tn = .ok (some (s, mo)) := by
          rw [hsv, e1]
          exact updateSvars_ok_idem _ _ _ hu
        rw [hu2]
        have hkey : alInsert st1.enums (pyLower (s ++ "." ++ b ++ "_" ++ mo ++ "_" ++ fn))
            (renderEnumBody (get_enum_choices f)) = en' := by
          rw [hen, e3]
          exact alInsert_same _ _ _ (alFind_insert_self _ _ _)
        show Except.ok (some (s, mo), pyLower (s ++ "." ++ b ++ "_" ++ mo ++ "_" ++ fn),
            alInsert st1.enums (pyLower (s ++ "." ++ b ++ "_" ++ mo ++ "_" ++ fn))
              (renderEnumBody (get_enum_choices f))) = Except.ok (sv', typ, en')
        simp only [hkey, e1, e2]

theorem processCommon_enums_idem {senv : SchemaEnv} {m : DModel} {tn fn : String}
    {f : DField} {stA stB st1 st2 : XState}
    (h1 : processCommon senv m tn fn f stA = .ok st1)
    (h2 : processCommon senv m tn fn f stB = .ok st2)
    (hsv : stB.svars = st1.svars) (hen : stB.enums = st1.enums) :
    st2.enums = st1.enums := by
  obtain ⟨sv1, typ1, en1, hcs1, hst1⟩ := processCommon_ok h1
  obtain ⟨sv2, typ2, en2, hcs2, hst2⟩ := processCommon_ok h2
  have hsv1 : st1.svars = sv1 := by rw [hst1]
  have hen1 : st1.enums = en1 := by rw [hst1]
  have hcs2' := choicesStep_idem hcs1 (by rw [hsv, hsv1]) (by rw [hen, hen1])
  have h' := Except.ok.inj (hcs2'.symm.trans hcs2)
  have e3 : en2 = en1 := (congrArg (fun x => x.2.2) h').symm
  rw [hst2]
  show en2 = st1.enums
  rw [e3, hen1]

theorem addRel_svars (st : XState) (tn : String) (r : Relation) :
    (addRel st tn r).svars = st.svars := rfl

theorem addRel_enums (st : XState) (tn : String) (r : Relation) :
    (addRel st tn r).enums = st.enums := rfl

/-- C7: (1) in any successful extraction the enum names emitted to the
document (the sorted keys of the enums dict) are pairwise distinct and
each is its own lower-casing; (2) enum derivation is idempotent:
processing the very same field twice leaves the enums dict of the first
pass unchanged; (3) a choice-bearing field's recorded column type is
rewritten in place to the (lower-cased) synthesized enum name, which
keys an entry of the enums dict. -/
theorem c7_enum_invariants :
    (∀ (senv : SchemaEnv) (opts : Options) (models : List DModel) (st : XState),
      extract senv opts models = .ok st →
      ((sortPairs st.enums).map (·.1)).Nodup ∧
        ∀ n ∈ (sortPairs st.enums).map (·.1), pyLower n = n) ∧
    (∀ (senv : SchemaEnv) (opts : Options) (m : DModel) (tn color tl : String)
      (st st1 st2 : XState) (f : DField),
      processField senv opts m tn color tl st f = .ok st1 →
      processField senv opts m tn color tl st1 f = .ok st2 →
      st2.enums = st1.enums) ∧
    (∀ (senv : SchemaEnv) (m : DModel) (tn fn : String) (f : DField)
      (st st' : XState) (t0 : Table),
      f.choices ≠ [] → processCommon senv m tn fn f st = .ok st' →
      alFind st.tables tn = some t0 →
      ∃ nm, pyLower nm = nm ∧ (alFind st'.enums nm).isSome = true ∧
        ∃ t1, alFind st'.tables tn = some t1 ∧
          alFind t1.fields fn = some (commonFdict nm f) ∧
          fdType (commonFdict nm f) = nm) := by
  refine ⟨?_, ?_, ?_⟩
  · intro senv opts models st h
    obtain ⟨hnd, hlow⟩ := extract_enumsGood h
    have hperm : List.Perm (sortPairs st.enums) st.enums := List.perm_insertionSort _ _
    have hpk : List.Perm ((sortPairs st.enums).map (·.1)) (alKeys st.enums) := hperm.map _
    constructor
    · exact hpk.nodup_iff.mpr hnd
    · intro n hn
      exact hlow n (hpk.mem_iff.mp hn)
  · intro senv opts m tn color tl st st1 st2 f h1 h2
    cases hk : f.kind with
    | reverseRel =>
      simp only [processField, hk] at h1 h2
      rw [← Except.ok.inj h2]
    | manyToMany i =>
      simp only [processField, hk] at h1 h2
      rw [← Except.ok.inj h2, processM2M_enums]
    | plain =>
      simp only [processField, hk] at h1 h2
      exact processCommon_enums_idem h1 h2 rfl rfl
    | oneToOne rl rdb tf =>
      simp only [processField, hk] at h1 h2
      exact processCommon_enums_idem h1 h2 (addRel_svars _ _ _) (addRel_enums _ _ _)
    | foreignKey rl rdb tf =>
      simp only [processField, hk] at h1 h2
      exact processCommon_enums_idem h1 h2 (addRel_svars _ _ _) (addRel_enums _ _ _)
  · intro senv m tn fn f st st' t0 hch hpc hfind
    obtain ⟨sv', typ, en', hcs, rfl⟩ := processCommon_ok hpc
    simp only [choicesStep, if_pos hch] at hcs
    cases hu : updateSvars st.svars tn with
    | error e => rw [hu] at hcs; exact Except.noConfusion hcs
    | ok svr =>
      rw [hu] at hcs
      cases svr with
      | none => exact Except.noConfusion hcs
      | some pq =>
        obtain ⟨s, mo⟩ := pq
        have h' := Except.ok.inj hcs
        have e2 : typ = pyLower (s ++ "." ++ map_field_type_to_dbml_type f.typeName
            ++ "_" ++ mo ++ "_" ++ fn) := (congrArg (fun x => x.2.1) h').symm
        have e3 : en' = alInsert st.enums typ (renderEnumBody (get_enum_choices f)) := by
          rw [e2]
          exact (congrArg (fun x => x.2.2) h').symm
        refine ⟨typ, ?_, ?_, ?_⟩
        · rw [e2]
          exact pyLower_idem _
        · show (alFind en' typ).isSome = true
          rw [e3, alFind_insert_self]
          rfl
        · refine ⟨{ t0 with
            fields := alInsert t0.fields fn (commonFdict typ f),
            indexes := t0.indexes ++ commonIdxs senv m fn f }, ?_, ?_, ?_⟩
          · show alFind (alModify st.tables tn _) tn = _
            rw [alFind_modify_self, hfind]
            rfl
          · exact alFind_insert_self _ _ _
          · simp [commonFdict, fdType, alFind]

/-- State for the C7 witness runs: only the `app.Alpha` table exists. -/
def c7wState : XState := ⟨[], [("app.Alpha", Table.empty)], [], none⟩

/-- State after one pass over the choice-bearing `status` field. -/
def c7wOnce : XState :=
  match processField envA.toSchemaEnv {} alphaModel "app.Alpha" "" "app" c7wState statusFieldW with
  | .ok s => s
  | .error _ => XState.init

/-- State after a second pass over the same field. -/
def c7wTwice : XState :=
  match processField envA.toSchemaEnv {} alphaModel "app.Alpha" "" "app" c7wOnce statusFieldW with
  | .ok s => s
  | .error _ => XState.init

/-- Witness for C7: on the concrete two-model run the emitted enum
names are distinct and lower-case; reprocessing the `status` field
leaves the enums dict unchanged; and its column type was rewritten to
the lower-cased enum name. -/
theorem c7_enum_invariants_witness :
    ((sortPairs c6Result.enums).map (·.1)).Nodup ∧
    c7wTwice.enums = c7wOnce.enums ∧
    fieldTypeIn c7wOnce "app.Alpha" "status" = some "app.char_alpha_status" ∧
    pyLower "app.char_alpha_status" = "app.char_alpha_status" := by
  refine ⟨?_, ?_, ?_, ?_⟩
  · exact (c7_enum_invariants.1 envA.toSchemaEnv {} [alphaModel, betaModel] c6Result
      (by decide)).1
  · exact c7_enum_invariants.2.1 envA.toSchemaEnv {} alphaModel "app.Alpha" "" "app"
      c7wState c7wOnce c7wTwice statusFieldW (by decide) (by decide)
  · obtain ⟨nm, hlow, hsome, t1, hf1, hfd1, hty1⟩ :=
      c7_enum_invariants.2.2 envA.toSchemaEnv alphaModel "app.Alpha" "status" statusFieldW
        c7wState c7wOnce Table.empty (by decide) (by decide) (by decide)
    exact (by decide : fieldTypeIn c7wOnce "app.Alpha" "status" = some "app.char_alpha_status")
  · obtain ⟨nm, hlow, hsome, t1, hf1, hfd1, hty1⟩ :=
      c7_enum_invariants.2.2 envA.toSchemaEnv alphaModel "app.Alpha" "status" statusFieldW
        c7wState c7wOnce Table.empty (by decide) (by decide) (by decide)
    have hn : fieldTypeIn c7wOnce "app.Alpha" "status" = some nm := by
      simp only [fieldTypeIn, hf1, hfd1]
      rw [hty1]
    have hd : fieldTypeIn c7wOnce "app.Alpha" "status" = some "app.char_alpha_status" := by
      decide
    have he : nm = "app.char_alpha_status" := Option.some.inj ((hn.symm.trans hd))
    rw [← he]
    exact hlow

/-! ### C9: index derivation -/

/-- Model with storage table `x` and unique column `y_z`: its unique
index is named `x_y_z_key`. -/
def xModel : DModel :=
  { appLabel := "a", objectName := "X", dbTable := "x", module := "a.models",
    fields := [{ name := "y_z", typeName := "CharField", unique := true }] }

/-- Model with storage table `x_y` and unique column `z`: its unique
index is also named `x_y_z_key`. -/
def xyModel : DModel :=
  { appLabel := "a", objectName := "Xy", dbTable := "x_y", module := "a.models",
    fields := [{ name := "z", typeName := "CharField", unique := true }] }

/-- Extraction state of the index-name collision run. -/
def c9Result : XState :=
  match extract envA.toSchemaEnv {} [xModel, xyModel] with
  | .ok s => s
  | .error _ => XState.init

/-- Counterexample to C9's uniqueness invariant: two tables whose
hand-rolled `<db_table>_<column>_key` unique-index names collide — the
name `x_y_z_key` occurs twice across the emitted document, so index
names are not unique within it. -/
theorem c9_index_name_counterexample :
    ((c9Result.tables.map (fun p => p.2.indexes.map (fun i => i.name))).flatten).count
        "x_y_z_key" = 2 ∧
    ¬ ((c9Result.tables.map (fun p => p.2.indexes.map (fun i => i.name))).flatten).Nodup := by
  decide

/-- C9 amended: (1) per-field processing appends to the owning table
exactly the per-column entries `commonIdxs`; (2) those are exactly one
entry when the column is a primary key, unique, or individually
indexed — named `<db_table>_pkey` for a pk, `<db_table>_<col>_key` for
one-to-one or unique columns, and by the schema editor's
`_create_index_name` otherwise — (3) and exactly none when it is not;
(4) `Meta.indexes` composite entries and `unique_together` constraints
are appended only after the per-column pass, in that order.  Index
names are deterministic (pure functions of the inputs), but they are
not guaranteed unique across the document. -/
theorem c9_index_rules :
    (∀ (senv : SchemaEnv) (m : DModel) (tn fn : String) (f : DField)
      (st st' : XState) (t0 : Table),
      processCommon senv m tn fn f st = .ok st' →
      alFind st.tables tn = some t0 →
      ∃ t1, alFind st'.tables tn = some t1 ∧
        t1.indexes = t0.indexes ++ commonIdxs senv m fn f) ∧
    (∀ (senv : SchemaEnv) (m : DModel) (fn : String) (f : DField),
      (f.dbIndex || f.primaryKey || f.unique) = true →
      commonIdxs senv m fn f =
        [{ fields := [fn], type := "btree",
           name :=
             if f.primaryKey then m.dbTable ++ "_pkey"
             else if f.isO2O || f.unique then m.dbTable ++ "_" ++ fn ++ "_key"
             else senv.createIndexName m.dbTable [fn],
           unique := f.unique, pk := f.primaryKey }]) ∧
    (∀ (senv : SchemaEnv) (m : DModel) (fn : String) (f : DField),
      (f.dbIndex || f.primaryKey || f.unique) = false →
      commonIdxs senv m fn f = []) ∧
    (∀ (senv : SchemaEnv) (opts : Options) (st st' : XState) (m : DModel),
      processModel senv opts st m = .ok st' →
      ∃ stMid, processFields senv opts m (get_table_name opts m)
          (if opts.colorByApp then "#" ++ strTake (senv.colorHash (get_tl_module_name m)) 6 else "")
          (get_tl_module_name m)
          { st with
            tables := alInsert st.tables (get_table_name opts m) Table.empty,
            colors := alInsert st.colors (get_table_name opts m)
              ((if opts.colorByApp then "#" ++ strTake (senv.colorHash (get_tl_module_name m)) 6 else ""),
                get_tl_module_name m) } m.fields = .ok stMid ∧
        (alFind st'.tables (get_table_name opts m)).map (fun t => t.indexes) =
          (alFind stMid.tables (get_table_name opts m)).map (fun t =>
            t.indexes
              ++ m.metaIndexes.map (fun mi =>
                { fields := mi.columns, type := if mi.isHash then "hash" else "btree",
                  name := mi.name, unique := false, pk := false })
              ++ m.uniqueTogether.map (fun cols =>
                { fields := cols, type := "btree",
                  name := senv.uniqueConstraintName m.dbTable cols,
                  unique := true, pk := false }))) := by
  refine ⟨?_, ?_, ?_, ?_⟩
  · intro senv m tn fn f st st' t0 hpc hfind
    obtain ⟨sv', typ, en', -, rfl⟩ := processCommon_ok hpc
    refine ⟨{ t0 with
        fields := alInsert t0.fields fn (commonFdict typ f),
        indexes := t0.indexes ++ commonIdxs senv m fn f }, ?_, rfl⟩
    show alFind (alModify st.tables tn _) tn = _
    rw [alFind_modify_self, hfind]
    rfl
  · intro senv m fn f h
    simp only [commonIdxs, h, if_true]
  · intro senv m fn f h
    simp only [commonIdxs, h, Bool.false_eq_true, if_false]
  · intro senv opts st st' m hpm
    simp only [processModel] at hpm
    cases hpf : processFields senv opts m (get_table_name opts m)
        (if opts.colorByApp then "#" ++ strTake (senv.colorHash (get_tl_module_name m)) 6 else "")
        (get_tl_module_name m)
        { st with
          tables := alInsert st.tables (get_table_name opts m) Table.empty,
          colors := alInsert st.colors (get_table_name opts m)
            ((if opts.colorByApp then "#" ++ strTake (senv.colorHash (get_tl_module_name m)) 6 else ""),
              get_tl_module_name m) } m.fields with
    | error e => rw [hpf] at hpm; exact Except.noConfusion hpm
    | ok stMid =>
      rw [hpf] at hpm
      refine ⟨stMid, rfl, ?_⟩
      rw [← Except.ok.inj hpm]
      cases hm : alFind stMid.tables (get_table_name opts m) <;>
        simp [alFind_modify_self, hm]

/-- Starting state of the C9 per-column witness. -/
def c9wState : XState := ⟨[], [("a.X", Table.empty)], [], none⟩

/-- Result of processing the unique `y_z` column of model `X`. -/
def c9wResult : XState :=
  match processCommon envA.toSchemaEnv xModel "a.X" "y_z"
      { name := "y_z", typeName := "CharField", unique := true } c9wState with
  | .ok s => s
  | .error _ => XState.init

/-- Result of the whole model pass over `X`. -/
def c9wModel : XState :=
  match processModel envA.toSchemaEnv {} XState.init xModel with
  | .ok s => s
  | .error _ => XState.init

/-- Witness for the amended C9: the unique column yields exactly the one
`x_y_z_key` entry, a plain column yields none, and the model pass leaves
exactly that one index on the table. -/
theorem c9_index_rules_witness :
    (alFind c9wResult.tables "a.X").map (fun t => t.indexes) =
      some [{ fields := ["y_z"], type := "btree", name := "x_y_z_key",
              unique := true, pk := false }] ∧
    commonIdxs envA.toSchemaEnv xModel "title" { name := "title", typeName := "CharField" } = [] ∧
    (alFind c9wModel.tables "a.X").map (fun t => t.indexes.length) = some 1 := by
  obtain ⟨t1, hf1, hidx⟩ := c9_index_rules.1 envA.toSchemaEnv xModel "a.X" "y_z"
    { name := "y_z", typeName := "CharField", unique := true } c9wState c9wResult Table.empty
    (by decide) (by decide)
  have h3 := c9_index_rules.2.2.1 envA.toSchemaEnv xModel "title"
    { name := "title", typeName := "CharField" } (by decide)
  obtain ⟨stMid, hmid, heq⟩ :=
    c9_index_rules.2.2.2 envA.toSchemaEnv {} XState.init c9wModel xModel (by decide)
  refine ⟨?_, h3, ?_⟩
  · have ht : t1.indexes =
        [({ fields := ["y_z"], type := "btree", name := "x_y_z_key",
            unique := true, pk := false } : IndexInfo)] := by
      rw [hidx]
      decide
    simp [hf1, ht]
  · decide

/-! ### C3: two-run determinism -/

/-- Counterexample to C3 as stated: two runs over the same (empty)
metadata source with the same configuration but different clock readings
produce different bytes, because the default project note embeds a
`Last Updated At` timestamp. -/
theorem c3_determinism_counterexample :
    handle { envA with now := "01-01-2026 01:00AM UTC" } {} [] ⟨[]⟩ ≠
      handle { envA with now := "02-02-2026 02:00AM UTC" } {} [] ⟨[]⟩ := by
  decide

/-- C3 amended: the pipeline is a pure function of the metadata, the
configuration, and the clock; with `--disable_update_timestamp` the
clock is unused, so re-running at any two times yields byte-identical
output. -/
theorem c3_determinism_amended :
    ∀ (env : Env) (opts : Options) (sels : List String) (reg : Registry) (n n' : String),
      opts.disableUpdateTimestamp = true →
      handle { env with now := n } opts sels reg =
        handle { env with now := n' } opts sels reg := by
  intro env opts sels reg n n' hdis
  cases hga : get_app_tables reg sels with
  | error e => simp [handle, hga]
  | ok models =>
    cases hex : extract ({ env with now := n }).toSchemaEnv opts models with
    | error e =>
      simp only [handle, hga]
      rw [show extract env.toSchemaEnv opts models = Except.error e from hex]
    | ok st =>
      simp only [handle, hga]
      rw [show extract env.toSchemaEnv opts models = Except.ok st from hex]
      have hpb : projectBlock { env with now := n } opts
          = projectBlock { env with now := n' } opts := by
        simp [projectBlock, hdis]
      simp [render, renderBlocks, hpb]

/-- Witness for the amended C3: with the timestamp suppressed, two runs
at different clock readings agree. -/
theorem c3_determinism_amended_witness :
    handle { envA with now := "01-01-2026 01:00AM UTC" }
        { disableUpdateTimestamp := true } [] ⟨[]⟩ =
      handle { envA with now := "02-02-2026 02:00AM UTC" }
        { disableUpdateTimestamp := true } [] ⟨[]⟩ :=
  c3_determinism_amended envA { disableUpdateTimestamp := true } [] ⟨[]⟩
    "01-01-2026 01:00AM UTC" "02-02-2026 02:00AM UTC" rfl

/-! ### C5: ordering of the rendered document -/

theorem c5_render_order :
    (∀ (st : XState),
      ((sortPairs st.enums).map (·.1)).Pairwise (fun a b => strLeB a b = true)) ∧
    (∀ (st : XState),
      ((sortPairs st.tables).map (·.1)).Pairwise (fun a b => strLeB a b = true)) ∧
    (∀ (l : List IndexInfo),
      ((sortIdx l).map (fun i => i.name)).Pairwise (fun a b => strLeB a b = true)) ∧
    (∀ (env : Env) (opts : Options) (st : XState),
      renderBlocks env opts st =
        [projectBlock env opts] ++ (sortPairs st.enums).map enumBlock
          ++ (sortPairs st.tables).flatMap (tableChunk opts st.colors)
          ++ groupBlocks opts st.colors) ∧
    (∀ (opts : Options) (colors : List (String × (String × String))) (p : String × Table),
      tableChunk opts colors p =
        tableBlockLines opts colors p ++ renderRelLines p.2.relations ++ ["\n"] ∧
      tableBlockLines opts colors p =
        [tableHeadLine opts colors p.1]
          ++ (if p.2.note ≠ "" then
              ["  Note: \x27\x27\x27\n" ++ cleanup_docstring p.2.note ++ "\x27\x27\x27\n"] else [])
          ++ p.2.fields.map renderFieldLine
          ++ (if p.2.indexes ≠ [] then
              ["\n  indexes \x7b"] ++ (sortIdx p.2.indexes).map renderIndexLine ++ ["  \x7d"]
              else [])
          ++ ["\x7d"]) ∧
    (∀ (env : Env) (opts : Options) (st : XState) (p : String × Table),
      p ∈ sortPairs st.tables →
      ∃ u v, renderBlocks env opts st =
        u ++ (tableBlockLines opts st.colors p ++ renderRelLines p.2.relations) ++ v) := by
  refine ⟨?_, ?_, ?_, ?_, ?_, ?_⟩
  · intro st
    have hs : (sortPairs st.enums).Pairwise pairLe :=
      List.sorted_insertionSort pairLe st.enums
    exact List.Pairwise.map (fun p : String × String => p.1) (fun a b h => h) hs
  · intro st
    have hs : (sortPairs st.tables).Pairwise pairLe :=
      List.sorted_insertionSort pairLe st.tables
    exact List.Pairwise.map (fun p : String × Table => p.1) (fun a b h => h) hs
  · intro l
    have hs : (sortIdx l).Pairwise idxLe :=
      List.sorted_insertionSort idxLe l
    exact List.Pairwise.map (fun i : IndexInfo => i.name) (fun a b h => h) hs
  · intro env opts st
    rfl
  · intro opts colors p
    exact ⟨rfl, rfl⟩
  · intro env opts st p hp
    obtain ⟨l1, l2, hsplit⟩ := List.append_of_mem hp
    refine ⟨[projectBlock env opts] ++ (sortPairs st.enums).map enumBlock
        ++ l1.flatMap (tableChunk opts st.colors),
      ["\n"] ++ l2.flatMap (tableChunk opts st.colors) ++ groupBlocks opts st.colors, ?_⟩
    simp only [renderBlocks, hsplit, List.flatMap_append, List.flatMap_cons, tableChunk]
    simp [List.append_assoc]

/-- Witness for C5's placement part: with a single table the document is
the project block, then the table's block immediately followed by its
relation lines (none here), then the separator. -/
theorem c5_render_order_witness :
    renderBlocks envA {} ⟨[], [("t", Table.empty)], [], none⟩ =
      [projectBlock envA {}] ++ (tableBlockLines {} [] ("t", Table.empty)
        ++ renderRelLines Table.empty.relations) ++ ["\n"] := by
  have h := c5_render_order.2.2.2.2.2 envA {} ⟨[], [("t", Table.empty)], [], none⟩
    ("t", Table.empty) (by decide)
  decide

/-! ### C8: the Category/Post worked example -/

/-- Full document rendered for the worked example restricted to
`testapp`, in the default (label) naming mode. -/
def c8Output : String :=
  match handle envA {} ["testapp"] regA with
  | .ok s => s
  | .error _ => ""

/-- The same run under `--table_names` (storage-name mode). -/
def c8OutputT : String :=
  match handle envA { tableNames := true } ["testapp"] regA with
  | .ok s => s
  | .error _ => ""

/-- The lines of a rendered document. -/
def outLines (s : String) : List String := splitStr '\n' s

set_option maxRecDepth 8000 in
/-- Counterexample to C8 as stated: in neither naming mode does the
claimed line `ref: testapp.category.id > testapp.post.category_id` (or
its storage-name variant) appear; the single ref line the renderer
emits has the owning table on the left — the claim's direction is
reversed. -/
theorem c8_example_counterexample :
    "ref: testapp.category.id > testapp.post.category_id" ∉ outLines c8Output ∧
    "ref: testapp.Category.id > testapp.Post.category_id" ∉ outLines c8Output ∧
    "ref: testapp_category.id > testapp_post.category_id" ∉ outLines c8OutputT ∧
    ((outLines c8Output).filter
      (fun l => "ref:".data.isPrefixOf l.data)) =
      ["ref: testapp.Post.category_id > testapp.Category.id"] := by
  decide

set_option maxRecDepth 8000 in
/-- C8 amended: the worked example renders exactly two `Table` blocks
and exactly one relation line, and that line is
`ref: testapp.Post.category_id > testapp.Category.id` in label mode
(`ref: testapp_post.category_id > testapp_category.id` under
`--table_names`): the renderer writes the owning table's side first. -/
theorem c8_example_amended :
    ((outLines c8Output).filter
      (fun l => "Table ".data.isPrefixOf l.data)).length = 2 ∧
    ((outLines c8Output).filter
      (fun l => "ref:".data.isPrefixOf l.data)) =
      ["ref: testapp.Post.category_id > testapp.Category.id"] ∧
    ((outLines c8OutputT).filter
      (fun l => "Table ".data.isPrefixOf l.data)).length = 2 ∧
    ((outLines c8OutputT).filter
      (fun l => "ref:".data.isPrefixOf l.data)) =
      ["ref: testapp_post.category_id > testapp_category.id"] := by
  decide
